import Mathlib

/-!
Verification development for the AI-powered sugya extraction pipeline of the
sefaria-backend repository (source file `src/ai/sugya_extractor.py`).

The Python module is embedded shallowly:

* pure helpers (`_simulate_ai_analysis`, `_parse_ai_response`,
  `_group_texts_by_page`, `_combine_texts`, prompt construction) become Lean
  functions over `String`/`List`;
* the Neo4j graph store becomes an explicit `GraphState` record of key-indexed
  lists; every Cypher `MERGE`/`SET`/`MATCH` is translated query by query
  (`upsertKV` for a `MERGE` on a key followed by `SET` of properties,
  `insertIfAbsent` for a `MERGE` of an edge, membership tests for `MATCH`
  preconditions);
* the external world (the OpenAI client, JSON decoding of the model reply, and
  driver/network failures of the Neo4j adapter) is an `Env` of oracles, so a
  theorem quantified over `Env` covers every behaviour of those components;
* Python `try`/`except` becomes matching on `Except` values; Python functions
  that may raise are `Except`-valued, functions that catch everything are total.

Non-ASCII literals (the Hebrew keyword markers of the fallback analyzer) are
copied verbatim from the source.  Timestamp properties (`created_at`,
`updated_at`, set from `datetime()`) are the one part of the records that is
not modelled: they are nondeterministic wall-clock values and no claim
mentions them; all key fields, data properties and edges are modelled.

String primitives are re-implemented structurally over `List Char`
(`splitChar`, `strTake`, `strTrim`, `strContains`, ...) so that every
definition reduces in the kernel; each is a faithful rendering of the Python
primitive it stands for (`str.split`, slicing, `str.strip`, the `in`
substring test, ...).
-/

namespace SugyaExtractor

/-- Decidable prefix test on character lists (Python `startswith`, and the
building block of the substring test). -/
def isPrefixOfB : List Char → List Char → Bool
  | [], _ => true
  | _ :: _, [] => false
  | a :: as, b :: bs => a = b && isPrefixOfB as bs

/-- Decidable infix test: does `needle` occur contiguously in `hay`?
Mirrors the Python substring operator `in` and the Cypher `CONTAINS`. -/
def isInfixOfB (needle : List Char) : List Char → Bool
  | [] => isPrefixOfB needle []
  | c :: rest => isPrefixOfB needle (c :: rest) || isInfixOfB needle rest

/-- `strContains hay needle`: the Python test `needle in hay` and the Cypher
test `hay CONTAINS needle`. -/
def strContains (hay needle : String) : Bool :=
  isInfixOfB needle.data hay.data

/-- Python `s.startswith(pre)` and Cypher `STARTS WITH`. -/
def strStartsWith (s pre : String) : Bool :=
  isPrefixOfB pre.data s.data

/-- Python slicing `s[:n]` (by code points, as in Python). -/
def strTake (s : String) (n : Nat) : String :=
  String.mk (s.data.take n)

/-- Python `s.strip()`: drop whitespace from both ends. -/
def strTrim (s : String) : String :=
  String.mk (((s.data.dropWhile Char.isWhitespace).reverse.dropWhile
    Char.isWhitespace).reverse)

/-- Tail of `splitChar`: accumulates the current (reversed) piece. -/
def splitCharAux (sep : Char) : List Char → List Char → List String
  | [], acc => [String.mk acc.reverse]
  | c :: rest, acc =>
    if c = sep then String.mk acc.reverse :: splitCharAux sep rest []
    else splitCharAux sep rest (c :: acc)

/-- Python `s.split(sep)` for a one-character separator (the source only ever
splits on a newline or on a single space). -/
def splitChar (sep : Char) (s : String) : List String :=
  splitCharAux sep s.data []

/-- Python `sep.join(parts)`. -/
def joinSep (sep : String) : List String → String
  | [] => ""
  | [x] => x
  | x :: y :: rest => x ++ sep ++ joinSep sep (y :: rest)

/-- Decimal digit to character. -/
def digitChar (n : Nat) : Char :=
  Char.ofNat (48 + n)

/-- Fuel-driven decimal rendering (the fuel is always sufficient). -/
def natDigitsAux : Nat → Nat → List Char
  | 0, _ => []
  | fuel + 1, n =>
    if n < 10 then [digitChar n]
    else natDigitsAux fuel (n / 10) ++ [digitChar (n % 10)]

/-- Python `str(i)` for a natural number. -/
def natToStr (n : Nat) : String :=
  String.mk (natDigitsAux (n + 1) n)

/-- Lexicographic comparison of strings by character code, used to model the
Cypher `ORDER BY` over reference strings (all ids ordered by the source are
plain ASCII, where this agrees with the store collation). -/
def charListLe : List Char → List Char → Bool
  | [], _ => true
  | _ :: _, [] => false
  | a :: as, b :: bs =>
    if a = b then charListLe as bs else decide (a.val < b.val)

/-- String order for `ORDER BY`. -/
def strLe (a b : String) : Bool :=
  charListLe a.data b.data

/-- Ordered insertion for `sortByLe`. -/
def insertByLe {α : Type} (le : α → α → Bool) (x : α) : List α → List α
  | [] => [x]
  | y :: ys => if le x y then x :: y :: ys else y :: insertByLe le x ys

/-- Insertion sort, modelling the Cypher `ORDER BY` clause (a deterministic
sorted rendering of the matched rows). -/
def sortByLe {α : Type} (le : α → α → Bool) (l : List α) : List α :=
  l.foldr (insertByLe le) []

/-- Membership-checked insertion: the effect of a Cypher `MERGE` of an edge
(or of a keyless record): create it only when it is not already present. -/
def insertIfAbsent {α : Type} [DecidableEq α] (x : α) (xs : List α) : List α :=
  if x ∈ xs then xs else xs ++ [x]

/-- Key-indexed upsert: the effect of a Cypher `MERGE` on a key pattern
followed by `SET` of the data properties.  When the key is present every
matched record has its properties overwritten (a `MERGE` that matches several
records applies the `SET` to all of them); otherwise one record is created. -/
def upsertKV {κ ν : Type} [DecidableEq κ] (k : κ) (v : ν)
    (xs : List (κ × ν)) : List (κ × ν) :=
  if k ∈ xs.map Prod.fst then
    xs.map (fun p => if p.1 = k then (k, v) else p)
  else xs ++ [(k, v)]

/-- One entry of a `dialectic_nodes` list: the node dictionaries produced by
`_simulate_ai_analysis` and expected from the model reply (spec name:
DiscourseNode; `id` is the spec `local_id`).  The JSON-decoding oracle
produces fully-populated records, so the `dict.get` defaults of the source
(`'unknown'`, `''`) collapse to plain field access in the embedding. -/
structure DialecticNodeData where
  id : String
  type : String
  label : String
  speaker : String
  content_preview : String
  parent_id : Option String
  deriving DecidableEq

/-- The `content_he` property of a text record: the backing store holds either
a plain string or a list of strings (`_combine_texts` handles both). -/
inductive ContentVal where
  | str (s : String)
  | arr (l : List String)
  deriving DecidableEq

/-- A text record as fetched by `_fetch_texts` (spec name: TextUnit).
`content_en` is fetched by the source but never read afterwards, so it is
not carried. -/
structure TextRec where
  id : String
  content_he : ContentVal
  deriving DecidableEq

/-- The analysis dictionary produced by `_analyze_sugya_with_ai` /
`_simulate_ai_analysis` / `_parse_ai_response` (spec name: SugyaAnalysis).
`texts` is the `sugya_data['texts'] = page_texts` assignment performed by
`extract_sugyot_from_tractate`. -/
structure SugyaData where
  ref : String
  title : String
  summary : String
  theme : String
  main_question : String
  dialectic_nodes : List DialecticNodeData
  texts : List TextRec := []
  deriving DecidableEq

/-- Data properties of a persisted `Sugya` record (the `SET` clause of the
first query of `save_sugya_to_database`; the `datetime()` timestamps are not
modelled). -/
structure SugyaProps where
  title : String
  summary : String
  theme : String
  main_question : String
  extraction_method : String
  deriving DecidableEq

/-- Data properties of a persisted `DialecticNode` record (the `SET` clause
of the first pass of `_create_dialectic_nodes`). -/
structure DNodeProps where
  type : String
  label : String
  speaker : String
  content_preview : String
  sequence : Nat
  parent_id : Option String
  deriving DecidableEq

/-- The Neo4j graph store, restricted to the labels and relationship types
the extractor touches.  `sugyot` is keyed by `ref`; `dnodes` is keyed by the
`MERGE` pattern `{id, sugya_ref}`; the three edge lists hold
`CONTAINS_TEXT` (Sugya ref, Text id), `HAS_DIALECTIC_NODE` (Sugya ref,
DialecticNode id) and `LEADS_TO` (parent DialecticNode id, child
DialecticNode id) relationships.  `texts` is the pre-existing `Text` label,
never written by this pipeline. -/
structure GraphState where
  texts : List TextRec
  sugyot : List (String × SugyaProps)
  dnodes : List ((String × String) × DNodeProps)
  containsText : List (String × String)
  hasNode : List (String × String)
  leadsTo : List (String × String)
  deriving DecidableEq

/-- The fields `_parse_ai_response` reads from the decoded JSON object via
`data.get`: each is `none` when the key is missing from the model reply. -/
structure AIFields where
  title : Option String
  summary : Option String
  theme : Option String
  main_question : Option String
  dialectic_nodes : Option (List DialecticNodeData)
  deriving DecidableEq

/-- Oracles for everything outside the Python module: the OpenAI client
(`hasClient` is false when `OPENAI_API_KEY` is unset, in which case
`self.client is None`), the model call (which may raise), the `json.loads`
decoding of the brace-delimited span (which may raise), driver failure of a
`_fetch_texts` read (keyed by tractate and page; `some msg` means the read
raises with message `msg`), and driver failure inside the body of
`save_sugya_to_database` (keyed by the analysis ref). -/
structure Env where
  hasClient : Bool
  callModel : String → Except String String
  decode : String → Except String AIFields
  fetchFail : String → String → Option String
  dbFail : String → Bool

/-- The statistics dictionary returned by `extract_and_save_all`. -/
structure Stats where
  total_extracted : Nat
  saved : Nat
  failed : Nat
  tractate : String
  start_page : String
  deriving DecidableEq

/-- One entry of the `tractate_details` list built by `extract_all_sugyot`:
a success entry `{'tractate', 'extracted', 'saved'}` or an error entry
`{'tractate', 'error'}`. -/
inductive TractateDetail where
  | ok (tractate : String) (extracted saved : Nat)
  | err (tractate : String) (msg : String)
  deriving DecidableEq

/-- The dictionary returned by `extract_all_sugyot`.  `tractate_details` is
an `Option` because the zero-tractate early return of the source builds a
dictionary without that key. -/
structure AllStats where
  tractates_found : Nat
  tractates_processed : Nat
  total_extracted : Nat
  total_saved : Nat
  total_failed : Nat
  tractate_details : Option (List TractateDetail)
  deriving DecidableEq

/-! ## The fallback strategy: `_simulate_ai_analysis` -/

/-- The line preprocessing of `_simulate_ai_analysis`:
`[line.strip() for line in content.split(chr(10)) if line.strip()]`. -/
def contentLines (content : String) : List String :=
  ((splitChar '\n' content).map strTrim).filter (fun l => l ≠ "")

/-- Interrogative markers of the kasha branch. -/
def kashaWords : List String := ["למה", "מאי", "מנא", "היכי"]

/-- Assertion markers of the statement branch. -/
def statementWords : List String := ["אמר", "תנן", "תניא"]

/-- Dispute markers of the dispute branch. -/
def disputeWords : List String := ["פלוגתא", "מחלוקת"]

/-- The type/speaker decision chain of `_simulate_ai_analysis` for the line
in (1-based) position `i`. -/
def nodeTypeFor (i : Nat) (line : String) : String × String :=
  if i = 1 then ("mishnah", "Mishnah")
  else if strContains line "?" || kashaWords.any (fun w => strContains line w)
    then ("kasha", "Gemara")
  else if statementWords.any (fun w => strContains line w)
    then ("statement", "Gemara")
  else if disputeWords.any (fun w => strContains line w)
    then ("dispute", "Talmud")
  else if i % 2 = 0 then ("question", "Gemara")
  else ("answer", "Gemara")

/-- The node dictionary `_simulate_ai_analysis` appends for the line in
(1-based) position `i`. -/
def mkSimNode (i : Nat) (line : String) : DialecticNodeData :=
  let ts := nodeTypeFor i line
  let label0 := strTrim (strTake line 80)
  { id := natToStr i
    type := ts.1
    label := if line.length > 80 then label0 ++ "..." else label0
    speaker := ts.2
    content_preview := strTake line 100
    parent_id := if i > 1 then some (natToStr (i - 1)) else none }

/-- The four generic padding nodes appended when fewer than 5 nodes were
derived from the content lines (`base_count` is the derived count). -/
def additionalNodes (b : Nat) : List DialecticNodeData :=
  [ { id := natToStr (b + 1), type := "kasha",
      label := "Challenge to the statement", speaker := "Gemara",
      content_preview := "", parent_id := some (natToStr b) },
    { id := natToStr (b + 2), type := "terutz",
      label := "Resolution of the challenge", speaker := "Gemara",
      content_preview := "", parent_id := some (natToStr (b + 1)) },
    { id := natToStr (b + 3), type := "proof",
      label := "Proof from another source", speaker := "Gemara",
      content_preview := "", parent_id := some (natToStr (b + 2)) },
    { id := natToStr (b + 4), type := "conclusion",
      label := "Final ruling", speaker := "Gemara",
      content_preview := "", parent_id := some (natToStr (b + 3)) } ]

/-- The node list built by `_simulate_ai_analysis`: one node per non-empty
stripped line (at most the first 15), padded with four generic nodes when
fewer than 5 result. -/
def simulatedNodes (content : String) : List DialecticNodeData :=
  let lines := contentLines content
  let nodes := (lines.take 15).enum.map (fun p => mkSimNode (p.1 + 1) p.2)
  if nodes.length < 5 then nodes ++ additionalNodes nodes.length else nodes

/-- `_simulate_ai_analysis(page_ref, content)`: the deterministic fallback
strategy of the Dialectic Analyzer. -/
def simulate_ai_analysis (page_ref content : String) : SugyaData :=
  let lines := contentLines content
  { ref := page_ref
    title := "Discussion on " ++ page_ref
    summary := "Talmudic discussion from " ++ page_ref
    theme := "Halakhic discourse"
    main_question :=
      match lines with
      | [] => "Discussion topic"
      | l :: _ => strTake l 100
    dialectic_nodes := simulatedNodes content }

/-! ## The model-backed strategy: prompt, response parsing, dispatch -/

/-- The prompt template of `_create_analysis_prompt` (after truncating the
content to 4000 characters).  The literal text is inert data handed to the
model-call oracle; it is reproduced here in abridged form (header, text,
instruction list and JSON schema skeleton), with literal braces escaped. -/
def promptTemplate (page_ref content : String) : String :=
  "Analyze this Talmudic sugya from " ++ page_ref ++
  " and extract ALL dialectic steps.\n\nTEXT:\n" ++ content ++
  "\n\nPlease provide a COMPLETE analysis with:\n" ++
  "1. A concise title (5-10 words) that captures the main topic\n" ++
  "2. A one-sentence summary\n" ++
  "3. The main theme or question being discussed\n" ++
  "4. The COMPLETE dialectic structure - extract ALL steps, statements, and arguments\n\n" ++
  "For each node provide:\n" ++
  "- id: sequential number (1, 2, 3, ...)\n" ++
  "- type, label, speaker, content_preview\n" ++
  "- parent_id: ID of the step this responds to (null for first step)\n\n" ++
  "Format your response as JSON:\n\x7b\n    \"title\": \"...\",\n" ++
  "    \"summary\": \"...\",\n    \"main_question\": \"...\",\n" ++
  "    \"theme\": \"...\",\n    \"dialectic_nodes\": [...]\n\x7d"

/-- `_create_analysis_prompt`: truncate over-long content, then fill the
template. -/
def create_analysis_prompt (page_ref content : String) : String :=
  let content :=
    if content.length > 4000 then strTake content 4000 ++ "..." else content
  promptTemplate page_ref content

/-- The span located by `re.search(braceRe, response, re.DOTALL)` where
`braceRe` is an opening brace, a greedy dot-all run, and a closing brace:
the substring from the first opening brace to the last closing brace,
provided the latter lies strictly after the former. -/
def braceSpan (s : String) : Option String :=
  match s.data.findIdx? (· = '{') with
  | none => none
  | some i =>
    match s.data.reverse.findIdx? (· = '}') with
    | none => none
    | some rj =>
      let j := s.data.length - 1 - rj
      if i < j then some (String.mk ((s.data.drop i).take (j - i + 1)))
      else none

/-- Composition of span location and JSON decoding: `none` exactly when the
span is missing or `json.loads` (the `decode` oracle) raises. -/
def jsonSpanDecode (decode : String → Except String AIFields)
    (response : String) : Option AIFields :=
  match braceSpan response with
  | none => none
  | some span =>
    match decode span with
    | .ok fields => some fields
    | .error _ => none

/-- The analysis dictionary `_parse_ai_response` builds from decoded fields
(the `data.get` defaults of the source). -/
def buildSugyaFromFields (page_ref : String) (f : AIFields) : SugyaData :=
  { ref := page_ref
    title := f.title.getD ("Discussion on " ++ page_ref)
    summary := f.summary.getD ""
    theme := f.theme.getD ""
    main_question := f.main_question.getD ""
    dialectic_nodes := f.dialectic_nodes.getD [] }

/-- `_parse_ai_response(page_ref, response)`: locate the brace-delimited
span and decode it; on a missing span, or when decoding raises (the
`except` clause of the source), fall through to the fallback strategy with
an empty text context. -/
def parse_ai_response (decode : String → Except String AIFields)
    (page_ref response : String) : SugyaData :=
  match jsonSpanDecode decode response with
  | some fields => buildSugyaFromFields page_ref fields
  | none => simulate_ai_analysis page_ref ""

/-- `_analyze_sugya_with_ai(page_ref, content)`: with no client, simulate;
otherwise call the model inside `try`/`except`, parsing a successful reply
and degrading to the fallback on a raised call (the parse step catches its
own failures and cannot raise).  Total by construction: the caller always
receives a complete analysis value. -/
def analyze_sugya_with_ai (env : Env) (page_ref content : String) :
    SugyaData :=
  if env.hasClient = false then simulate_ai_analysis page_ref content
  else
    match env.callModel (create_analysis_prompt page_ref content) with
    | .ok response => parse_ai_response env.decode page_ref response
    | .error _ => simulate_ai_analysis page_ref content

/-! ## Persistence: `save_sugya_to_database` and `_create_dialectic_nodes` -/

/-- The composite DialecticNode key used by persistence:
`f"{sugya_ref}-{local_id}"`. -/
def compositeId (ref localId : String) : String :=
  ref ++ "-" ++ localId

/-- First query of `save_sugya_to_database`: `MERGE (s:Sugya {ref: $ref})`
followed by `SET` of the data properties. -/
def mergeSugyaRecord (a : SugyaData) (st : GraphState) : GraphState :=
  let props : SugyaProps :=
    ⟨a.title, a.summary, a.theme, a.main_question, "ai_powered"⟩
  { st with sugyot := upsertKV a.ref props st.sugyot }

/-- Second query of `save_sugya_to_database`: `MATCH` the Sugya by ref,
`MATCH` every Text whose id `CONTAINS` the ref, and `MERGE` a
`CONTAINS_TEXT` edge to each.  When no Sugya with that ref exists the
`MATCH` yields no rows and nothing happens. -/
def linkTexts (a : SugyaData) (st : GraphState) : GraphState :=
  if a.ref ∈ st.sugyot.map Prod.fst then
    let step := fun (es : List (String × String)) (t : TextRec) =>
      if strContains t.id a.ref then insertIfAbsent (a.ref, t.id) es else es
    { st with containsText := st.texts.foldl step st.containsText }
  else st

/-- The `MERGE` key `{id, sugya_ref}` of a DialecticNode record. -/
def dnodeKey (ref : String) (n : DialecticNodeData) : String × String :=
  (compositeId ref n.id, ref)

/-- The properties `SET` on the DialecticNode record for the node in
(0-based) position `p.1`. -/
def dnodeProps (p : Nat × DialecticNodeData) : DNodeProps :=
  ⟨p.2.type, p.2.label, p.2.speaker, p.2.content_preview, p.1 + 1,
    p.2.parent_id⟩

/-- One step of the first pass of `_create_dialectic_nodes` for the node in
(0-based) position `p.1`: `MATCH` the Sugya (no rows, no effect), `MERGE`
the DialecticNode on `{id, sugya_ref}`, `SET` its data properties, and
`MERGE` the `HAS_DIALECTIC_NODE` edge. -/
def nodePass1Step (ref : String) (s : GraphState)
    (p : Nat × DialecticNodeData) : GraphState :=
  if ref ∈ s.sugyot.map Prod.fst then
    let dn := upsertKV (dnodeKey ref p.2) (dnodeProps p) s.dnodes
    let hn := insertIfAbsent (ref, compositeId ref p.2.id) s.hasNode
    { s with dnodes := dn, hasNode := hn }
  else s

/-- One step of the second pass of `_create_dialectic_nodes`: for a truthy
`parent_id`, `MATCH` the parent and child DialecticNodes by composite id
and `MERGE` a `LEADS_TO` edge; if either `MATCH` finds nothing, no edge is
created. -/
def nodePass2Step (ref : String) (s : GraphState)
    (n : DialecticNodeData) : GraphState :=
  match n.parent_id with
  | none => s
  | some p =>
    if p ≠ "" then
      let ids := s.dnodes.map (fun q => q.1.1)
      if (compositeId ref p) ∈ ids ∧ (compositeId ref n.id) ∈ ids then
        let lt := insertIfAbsent (compositeId ref p, compositeId ref n.id)
          s.leadsTo
        { s with leadsTo := lt }
      else s
    else s

/-- `_create_dialectic_nodes(session, sugya_data)`: first pass creating all
node records (with their 1-based sequence index), second pass creating the
parent-child `LEADS_TO` edges. -/
def create_dialectic_nodes (a : SugyaData) (st : GraphState) : GraphState :=
  let st1 := a.dialectic_nodes.enum.foldl (nodePass1Step a.ref) st
  a.dialectic_nodes.foldl (nodePass2Step a.ref) st1

/-- The body of the `try` block of `save_sugya_to_database` when no driver
failure occurs: merge the Sugya, link the texts, and (for a truthy node
list) create the dialectic structure. -/
def saveSugyaPure (a : SugyaData) (st : GraphState) : GraphState :=
  let st1 := linkTexts a (mergeSugyaRecord a st)
  if a.dialectic_nodes ≠ [] then create_dialectic_nodes a st1 else st1

/-- `save_sugya_to_database(sugya_data)`: runs the upsert queries inside
`try`/`except`, returning `True` on success and `False` when the driver
raises (the `dbFail` oracle injects such a failure).  The exception never
escapes this boundary. -/
def save_sugya_to_database (dbFail : String → Bool) (a : SugyaData)
    (st : GraphState) : Bool × GraphState :=
  match (if dbFail a.ref then Except.error "db error"
         else Except.ok (saveSugyaPure a st) : Except String GraphState) with
  | .ok st1 => (true, st1)
  | .error _ => (false, st)

/-! ## Page grouping and text combination -/

/-- The first match of the page-token search (a digit run followed by a
side letter) in a character list: `re.search` scans start positions left to
right; a digit run can only complete the match at its maximal extent, since
any shorter digit prefix is followed by another digit rather than a side
letter. -/
def pageTokenAux : List Char → Option String
  | [] => none
  | c :: rest =>
    if c.isDigit then
      let run := (c :: rest).takeWhile Char.isDigit
      let after := (c :: rest).dropWhile Char.isDigit
      match after with
      | 'a' :: _ => some (String.mk (run ++ ['a']))
      | 'b' :: _ => some (String.mk (run ++ ['b']))
      | _ => pageTokenAux rest
    else pageTokenAux rest

/-- `re.search` for the page token (for example `2a`) in a text id. -/
def pageToken (s : String) : Option String :=
  pageTokenAux s.data

/-- ASCII letter test, the character class of the tractate-name pattern. -/
def isAsciiAlpha (c : Char) : Bool :=
  (decide ('A' ≤ c) && decide (c ≤ 'Z')) ||
    (decide ('a' ≤ c) && decide (c ≤ 'z'))

/-- The first match of the tractate-name search (a letter run, whitespace,
a digit run, a side letter; group 1 is the letter run) in a character list,
with the same maximal-run argument as for the page token. -/
def tractateTokenAux : List Char → Option String
  | [] => none
  | c :: rest =>
    if isAsciiAlpha c then
      let letters := (c :: rest).takeWhile isAsciiAlpha
      let after1 := (c :: rest).dropWhile isAsciiAlpha
      let ws := after1.takeWhile Char.isWhitespace
      let after2 := after1.dropWhile Char.isWhitespace
      let digits := after2.takeWhile Char.isDigit
      let after3 := after2.dropWhile Char.isDigit
      if ws ≠ [] ∧ digits ≠ [] then
        match after3 with
        | 'a' :: _ => some (String.mk letters)
        | 'b' :: _ => some (String.mk letters)
        | _ => tractateTokenAux rest
      else tractateTokenAux rest
    else tractateTokenAux rest

/-- `re.search` for the tractate name preceding a page token in a text id. -/
def tractateToken (s : String) : Option String :=
  tractateTokenAux s.data

/-- Append a text to the page group of `key` in an insertion-ordered
association list (the Python dict of `_group_texts_by_page`). -/
def appendToGroup (key : String) (t : TextRec) :
    List (String × List TextRec) → List (String × List TextRec)
  | [] => [(key, [t])]
  | (k, ts) :: rest =>
    if k = key then (k, ts ++ [t]) :: rest
    else (k, ts) :: appendToGroup key t rest

/-- `_group_texts_by_page(texts)`: group texts by the derived page
reference `f"{tractate} {page}"`; a text with no page token is silently
dropped; a text with a page token but no tractate token is grouped under
`"Unknown"`.  Keys appear in order of first occurrence, members in source
order. -/
def group_texts_by_page (texts : List TextRec) :
    List (String × List TextRec) :=
  texts.foldl
    (fun pages t =>
      match pageToken t.id with
      | none => pages
      | some page =>
        let tractate := (tractateToken t.id).getD "Unknown"
        appendToGroup (tractate ++ " " ++ page) t pages)
    []

/-- Fuel-driven removal of HTML tags, modelling `re.sub` with the pattern
(an opening angle bracket, one or more characters none of which is a
closing angle bracket, a closing angle bracket): each match runs from an
opening bracket to the first closing bracket after it, with a non-empty
gap; non-matching characters are kept and scanning resumes after each
match.  The fuel (initialised to the list length) strictly dominates the
number of steps. -/
def stripTagsAux : Nat → List Char → List Char
  | 0, l => l
  | _ + 1, [] => []
  | fuel + 1, '<' :: rest =>
    match rest.findIdx? (· = '>') with
    | none => '<' :: stripTagsAux fuel rest
    | some j =>
      if j = 0 then '<' :: stripTagsAux fuel rest
      else stripTagsAux fuel (rest.drop (j + 1))
  | fuel + 1, c :: rest => c :: stripTagsAux fuel rest

/-- `re.sub` of the HTML-tag pattern with the empty replacement. -/
def stripTags (s : String) : String :=
  String.mk (stripTagsAux s.data.length s.data)

/-- The string form of a `content_he` value: a list is joined with spaces,
dropping falsy (empty) elements. -/
def contentToStr : ContentVal → String
  | .str s => s
  | .arr l => joinSep " " (l.filter (fun c => c ≠ ""))

/-- `_combine_texts(texts)`: stringify each `content_he`, strip HTML tags,
keep non-blank results stripped, and join them with blank lines. -/
def combine_texts (texts : List TextRec) : String :=
  joinSep "\n\n"
    ((texts.map (fun t => strTrim (stripTags (contentToStr t.content_he)))
      ).filter (fun c => c ≠ ""))

/-- Scanner for the page-colon full-match pattern (arbitrary prefix, a
digit run, a side letter, a colon, arbitrary suffix): such a full match
exists exactly when some digit is immediately followed by a side letter
and a colon. -/
def pageColonAux : List Char → Bool
  | c1 :: c2 :: c3 :: rest =>
    (c1.isDigit && (c2 = 'a' || c2 = 'b') && c3 = ':') ||
      pageColonAux (c2 :: c3 :: rest)
  | _ => false

/-- The Cypher regex filter shared by `discover_all_tractates` and the
all-pages branch of `_fetch_texts`. -/
def hasPageColonPattern (s : String) : Bool :=
  pageColonAux s.data

/-! ## Fetching and the orchestrators -/

/-- `_fetch_texts(tractate, page, limit)`: read text records from the
store.  With a page, match ids containing both the tractate and the page;
without one, match ids starting with the tractate name and a space and
containing a page-colon pattern.  Rows are ordered by id and limited.  A
driver failure (the `fetchFail` oracle) raises out of this call. -/
def fetch_texts (env : Env) (tractate page : String) (limit : Nat)
    (st : GraphState) : Except String (List TextRec) :=
  match env.fetchFail tractate page with
  | some msg => .error msg
  | none =>
    let rows :=
      if page ≠ "" then
        st.texts.filter
          (fun t => strContains t.id tractate && strContains t.id page)
      else
        st.texts.filter
          (fun t => strStartsWith t.id (tractate ++ " ") &&
            hasPageColonPattern t.id)
    .ok ((sortByLe (fun t u => strLe t.id u.id) rows).take limit)

/-- The per-page work of `extract_sugyot_from_tractate`: combine the
member texts of one page group, analyze them, and record the members on the
resulting analysis (`sugya_data['texts'] = page_texts`). -/
def analyzePage (env : Env) (pr : String × List TextRec) : SugyaData :=
  let d := analyze_sugya_with_ai env pr.1 (combine_texts pr.2)
  { d with texts := pr.2 }

/-- `extract_sugyot_from_tractate(tractate, start_page, limit)`: fetch,
return the empty list when nothing was fetched (the early return of the
source), otherwise group by page and analyze each group; every page group
yields one analysis (the analyzer is total). -/
def extract_sugyot_from_tractate (env : Env) (tractate start_page : String)
    (limit : Nat) (st : GraphState) : Except String (List SugyaData) :=
  match fetch_texts env tractate start_page limit st with
  | .error e => .error e
  | .ok texts =>
    .ok (if texts.isEmpty then []
      else (group_texts_by_page texts).map (analyzePage env))

/-- The save loop of `extract_and_save_all`: persist each analysis in
order, counting successes and failures. -/
def saveLoop (dbFail : String → Bool) (sugyot : List SugyaData)
    (st : GraphState) : Nat × Nat × GraphState :=
  sugyot.foldl
    (fun acc sg =>
      let r := save_sugya_to_database dbFail sg acc.2.2
      if r.1 then (acc.1 + 1, acc.2.1, r.2) else (acc.1, acc.2.1 + 1, r.2))
    (0, 0, st)

/-- `extract_and_save_all(tractate, start_page, limit)`: extract, then save
each analysis; a fetch failure propagates out of this function (there is no
per-page exception handler at this level), while per-page save failures are
absorbed into the `failed` counter by `save_sugya_to_database`. -/
def extract_and_save_all (env : Env) (tractate start_page : String)
    (limit : Nat) (st : GraphState) : Except String (Stats × GraphState) :=
  match extract_sugyot_from_tractate env tractate start_page limit st with
  | .error e => .error e
  | .ok sugyot =>
    let r := saveLoop env.dbFail sugyot st
    .ok ({ total_extracted := sugyot.length, saved := r.1, failed := r.2.1,
           tractate := tractate, start_page := start_page }, r.2.2)

/-- `discover_all_tractates()`: ids matching the page-colon pattern,
split on single spaces, keeping rows with more than one part, taking the
first part, distinct, ordered. -/
def discover_all_tractates (st : GraphState) : List String :=
  let parts := ((st.texts.map TextRec.id).filter hasPageColonPattern).map
    (splitChar ' ')
  let firsts := (parts.filter (fun ps => ps.length > 1)).map
    (fun ps => ps.headD "")
  sortByLe strLe firsts.eraseDups

/-- One step of the per-tractate loop of `extract_all_sugyot`: a successful
single-tractate run updates the counters and appends a success detail; a
raised exception is caught, recorded as an error detail, and the loop
continues with the store state unchanged. -/
def allTractatesStep (env : Env) (limit : Nat)
    (acc : AllStats × GraphState) (t : String) : AllStats × GraphState :=
  match extract_and_save_all env t "" limit acc.2 with
  | .ok (stats, st1) =>
    let d := TractateDetail.ok t stats.total_extracted stats.saved
    ({ acc.1 with
        tractates_processed := acc.1.tractates_processed + 1
        total_extracted := acc.1.total_extracted + stats.total_extracted
        total_saved := acc.1.total_saved + stats.saved
        total_failed := acc.1.total_failed + stats.failed
        tractate_details := acc.1.tractate_details.map (· ++ [d]) }, st1)
  | .error e =>
    let d := TractateDetail.err t e
    ({ acc.1 with
        tractate_details := acc.1.tractate_details.map (· ++ [d]) }, acc.2)

/-- `extract_all_sugyot(limit_per_tractate)`: discover the tractates; with
none found, return the early dictionary (which carries only the five
counters and no detail list); otherwise run the per-tractate loop with
failure isolation. -/
def extract_all_sugyot (env : Env) (limit : Nat) (st : GraphState) :
    AllStats × GraphState :=
  let tractates := discover_all_tractates st
  if tractates.isEmpty then
    ({ tractates_found := 0, tractates_processed := 0, total_extracted := 0,
       total_saved := 0, total_failed := 0, tractate_details := none }, st)
  else
    tractates.foldl (allTractatesStep env limit)
      ({ tractates_found := tractates.length, tractates_processed := 0,
         total_extracted := 0, total_saved := 0, total_failed := 0,
         tractate_details := some [] }, st)

/-- The tractate name recorded on a per-tractate detail entry. -/
def detailTractate : TractateDetail → String
  | .ok t _ _ => t
  | .err t _ => t

/-- Whether a per-tractate detail entry is an error marker. -/
def detailIsError : TractateDetail → Bool
  | .ok _ _ _ => false
  | .err _ _ => true

/-! ## Concrete fixtures used by witnesses and counterexamples -/

/-- Oracle for a driver that never fails a save. -/
def noDbFailure : String → Bool := fun _ => false

/-- An empty graph store. -/
def emptyStore : GraphState :=
  { texts := [], sugyot := [], dnodes := [], containsText := [],
    hasNode := [], leadsTo := [] }

/-- A store holding three text records, two on the Berakhot 2a page and one
on Shabbat 2a. -/
def berakhotStore : GraphState :=
  { texts := [⟨"Berakhot 2a:1", .str "First"⟩,
              ⟨"Berakhot 2a:2", .str "Second"⟩,
              ⟨"Shabbat 2a:1", .str "Third"⟩],
    sugyot := [], dnodes := [], containsText := [], hasNode := [],
    leadsTo := [] }

/-- A two-node analysis of the Berakhot 2a page. -/
def berakhotAnalysis : SugyaData :=
  { ref := "Berakhot 2a", title := "Discussion on Berakhot 2a",
    summary := "s", theme := "t", main_question := "q",
    dialectic_nodes :=
      [⟨"1", "mishnah", "l1", "Mishnah", "c1", none⟩,
       ⟨"2", "kasha", "l2", "Gemara", "c2", some "1"⟩] }

/-- An analysis whose second node declares a parent local id that matches no
local id of the analysis. -/
def danglingAnalysis : SugyaData :=
  { ref := "Alpha 2a", title := "t", summary := "s", theme := "h",
    main_question := "q",
    dialectic_nodes :=
      [⟨"1", "mishnah", "l", "Mishnah", "c", none⟩,
       ⟨"2", "kasha", "l", "Gemara", "c", some "9"⟩] }

/-- Environment with no OpenAI client and no injected failures: the pipeline
runs entirely on the fallback strategy. -/
def envSim : Env :=
  { hasClient := false, callModel := fun _ => .error "no client",
    decode := fun _ => .error "no decode", fetchFail := fun _ _ => none,
    dbFail := fun _ => false }

/-- Environment in which persisting the analysis of page `Alpha 2b` fails
inside `save_sugya_to_database` (a driver error raised by a query of the
`try` block). -/
def envFailSave : Env :=
  { hasClient := false, callModel := fun _ => .error "no client",
    decode := fun _ => .error "no decode", fetchFail := fun _ _ => none,
    dbFail := fun r => decide (r = "Alpha 2b") }

/-- Environment in which every `_fetch_texts` read for the tractate `Beta`
raises a driver error. -/
def envFailFetchBeta : Env :=
  { hasClient := false, callModel := fun _ => .error "no client",
    decode := fun _ => .error "no decode",
    fetchFail := fun t _ => if t = "Beta" then some "boom" else none,
    dbFail := fun _ => false }

/-- A store holding one page of text for each of three tractates. -/
def triStore : GraphState :=
  { texts := [⟨"Alpha 2a:1", .str "Alpha line"⟩,
              ⟨"Beta 2a:1", .str "Beta line"⟩,
              ⟨"Gamma 2a:1", .str "Gamma line"⟩],
    sugyot := [], dnodes := [], containsText := [], hasNode := [],
    leadsTo := [] }

/-- A store holding three pages of text for the single tractate `Alpha`. -/
def alphaStore : GraphState :=
  { texts := [⟨"Alpha 2a:1", .str "First line"⟩,
              ⟨"Alpha 2b:1", .str "Second line"⟩,
              ⟨"Alpha 3a:1", .str "Third line"⟩],
    sugyot := [], dnodes := [], containsText := [], hasNode := [],
    leadsTo := [] }

/-- A model-call oracle whose call always raises (network failure). -/
def modelCallDown : String → Except String String :=
  fun _ => .error "connection failure"

/-- A model-call oracle that replies with text containing no brace-delimited
span. -/
def modelCallNoJson : String → Except String String :=
  fun _ => .ok "I cannot analyze this passage."

/-- A JSON-decoding oracle that always raises. -/
def decodeAlwaysFails : String → Except String AIFields :=
  fun _ => .error "invalid json"

/-- Environment with a client whose model call always raises. -/
def envModelDown : Env :=
  { hasClient := true, callModel := modelCallDown,
    decode := decodeAlwaysFails, fetchFail := fun _ _ => none,
    dbFail := fun _ => false }

/-- Environment with a client whose model call succeeds but returns no
brace-delimited JSON span. -/
def envModelNoJson : Env :=
  { hasClient := true, callModel := modelCallNoJson,
    decode := decodeAlwaysFails, fetchFail := fun _ _ => none,
    dbFail := fun _ => false }

/-! ## Toolkit lemmas about folds, `insertIfAbsent` and `upsertKV` -/

theorem foldl_pres {α σ : Type} (P : σ → Prop) {f : σ → α → σ} :
    ∀ (l : List α) (s : σ), (∀ s1 x, x ∈ l → P s1 → P (f s1 x)) → P s →
      P (l.foldl f s) := by
  intro l
  induction l with
  | nil => intro s _ hs; simpa using hs
  | cons x xs ih =>
    intro s h hs
    rw [List.foldl_cons]
    exact ih (f s x) (fun s1 y hy => h s1 y (List.mem_cons_of_mem x hy))
      (h s x (List.mem_cons_self x xs) hs)

theorem foldl_fix {α σ : Type} {f : σ → α → σ} {s : σ} :
    ∀ l : List α, (∀ x ∈ l, f s x = s) → l.foldl f s = s := by
  intro l
  induction l with
  | nil => intro _; rfl
  | cons x xs ih =>
    intro h
    rw [List.foldl_cons, h x (List.mem_cons_self x xs)]
    exact ih (fun y hy => h y (List.mem_cons_of_mem x hy))

theorem mem_insertIfAbsent {α : Type} [DecidableEq α] {x y : α}
    {xs : List α} : y ∈ insertIfAbsent x xs ↔ y ∈ xs ∨ y = x := by
  unfold insertIfAbsent
  by_cases h : x ∈ xs
  · rw [if_pos h]
    constructor
    · exact Or.inl
    · rintro (hy | rfl)
      · exact hy
      · exact h
  · rw [if_neg h]
    simp [List.mem_append]

theorem insertIfAbsent_of_mem {α : Type} [DecidableEq α] {x : α}
    {xs : List α} (h : x ∈ xs) : insertIfAbsent x xs = xs := by
  unfold insertIfAbsent
  exact if_pos h

theorem self_mem_insertIfAbsent {α : Type} [DecidableEq α] {x : α}
    {xs : List α} : x ∈ insertIfAbsent x xs :=
  mem_insertIfAbsent.2 (Or.inr rfl)

theorem insertIfAbsent_of_not_mem {α : Type} [DecidableEq α] {x : α}
    {xs : List α} (h : x ∉ xs) : insertIfAbsent x xs = xs ++ [x] := by
  unfold insertIfAbsent
  exact if_neg h

theorem nodup_insertIfAbsent {α : Type} [DecidableEq α] {x : α}
    {xs : List α} (h : xs.Nodup) : (insertIfAbsent x xs).Nodup := by
  by_cases hx : x ∈ xs
  · rw [insertIfAbsent_of_mem hx]; exact h
  · rw [insertIfAbsent_of_not_mem hx, List.nodup_append]
    refine ⟨h, List.nodup_singleton x, ?_⟩
    intro a ha hax
    rw [List.mem_singleton] at hax
    exact hx (hax ▸ ha)

theorem upsertKV_fst_of_mem {κ ν : Type} [DecidableEq κ] {k : κ} {v : ν}
    {xs : List (κ × ν)} (h : k ∈ xs.map Prod.fst) :
    (upsertKV k v xs).map Prod.fst = xs.map Prod.fst := by
  unfold upsertKV
  rw [if_pos h, List.map_map]
  apply List.map_congr_left
  intro p _
  by_cases hp : p.1 = k
  · simp [Function.comp, if_pos hp, hp]
  · simp [Function.comp, if_neg hp]

theorem mem_fst_upsertKV {κ ν : Type} [DecidableEq κ] {k k1 : κ} {v : ν}
    {xs : List (κ × ν)} :
    k1 ∈ (upsertKV k v xs).map Prod.fst ↔ k1 ∈ xs.map Prod.fst ∨ k1 = k := by
  by_cases h : k ∈ xs.map Prod.fst
  · rw [upsertKV_fst_of_mem h]
    constructor
    · exact Or.inl
    · rintro (hy | rfl)
      · exact hy
      · exact h
  · unfold upsertKV
    rw [if_neg h, List.map_append]
    simp [List.mem_append]

theorem nodup_fst_upsertKV {κ ν : Type} [DecidableEq κ] {k : κ} {v : ν}
    {xs : List (κ × ν)} (h : (xs.map Prod.fst).Nodup) :
    ((upsertKV k v xs).map Prod.fst).Nodup := by
  by_cases hk : k ∈ xs.map Prod.fst
  · rw [upsertKV_fst_of_mem hk]; exact h
  · unfold upsertKV
    rw [if_neg hk, List.map_append, List.nodup_append]
    refine ⟨h, by simp, ?_⟩
    intro a ha hax
    simp only [List.map_cons, List.map_nil, List.mem_singleton] at hax
    exact hk (hax ▸ ha)

theorem upsertKV_entry {κ ν : Type} [DecidableEq κ] {k : κ} {v : ν}
    (xs : List (κ × ν)) :
    ∀ q ∈ upsertKV k v xs, q.1 = k → q = (k, v) := by
  unfold upsertKV
  by_cases h : k ∈ xs.map Prod.fst
  · rw [if_pos h]
    intro q hq hqk
    obtain ⟨p, hp, rfl⟩ := List.mem_map.1 hq
    by_cases hp1 : p.1 = k
    · rw [if_pos hp1]
    · rw [if_neg hp1] at hqk ⊢
      exact absurd hqk hp1
  · rw [if_neg h]
    intro q hq hqk
    rcases List.mem_append.1 hq with hx | hx
    · exact absurd (hqk ▸ List.mem_map_of_mem Prod.fst hx) h
    · simpa using hx

theorem upsertKV_entry_stable {κ ν : Type} [DecidableEq κ]
    {k k1 : κ} {v v1 : ν} {xs : List (κ × ν)} (hne : k1 ≠ k)
    (hall : ∀ q ∈ xs, q.1 = k → q = (k, v)) :
    ∀ q ∈ upsertKV k1 v1 xs, q.1 = k → q = (k, v) := by
  unfold upsertKV
  by_cases h : k1 ∈ xs.map Prod.fst
  · rw [if_pos h]
    intro q hq hqk
    obtain ⟨p, hp, rfl⟩ := List.mem_map.1 hq
    by_cases hp1 : p.1 = k1
    · rw [if_pos hp1] at hqk ⊢
      exact absurd hqk hne
    · rw [if_neg hp1] at hqk ⊢
      exact hall p hp hqk
  · rw [if_neg h]
    intro q hq hqk
    rcases List.mem_append.1 hq with hx | hx
    · exact hall q hx hqk
    · simp at hx
      subst hx
      exact absurd hqk hne

theorem upsertKV_of_entry {κ ν : Type} [DecidableEq κ] {k : κ} {v : ν}
    {xs : List (κ × ν)} (hmem : k ∈ xs.map Prod.fst)
    (hall : ∀ q ∈ xs, q.1 = k → q = (k, v)) : upsertKV k v xs = xs := by
  unfold upsertKV
  rw [if_pos hmem]
  conv_rhs => rw [← List.map_id xs]
  apply List.map_congr_left
  intro p hp
  by_cases hp1 : p.1 = k
  · rw [if_pos hp1, id_eq]
    exact (hall p hp hp1).symm
  · rw [if_neg hp1, id_eq]

theorem foldl_insertIfAbsent_mem {α β : Type} [DecidableEq β]
    (P : α → Bool) (g : α → β) :
    ∀ (l : List α) (acc : List β) (y : β),
      (y ∈ l.foldl
        (fun es t => if P t then insertIfAbsent (g t) es else es) acc ↔
        y ∈ acc ∨ ∃ t ∈ l, P t ∧ y = g t) := by
  intro l
  induction l with
  | nil => simp
  | cons x xs ih =>
    intro acc y
    rw [List.foldl_cons, ih]
    by_cases hP : P x = true
    · rw [if_pos hP]
      rw [mem_insertIfAbsent]
      simp only [List.mem_cons]
      constructor
      · rintro ((hy | rfl) | ⟨t, ht, hPt, rfl⟩)
        · exact Or.inl hy
        · exact Or.inr ⟨x, Or.inl rfl, hP, rfl⟩
        · exact Or.inr ⟨t, Or.inr ht, hPt, rfl⟩
      · rintro (hy | ⟨t, (rfl | ht), hPt, rfl⟩)
        · exact Or.inl (Or.inl hy)
        · exact Or.inl (Or.inr rfl)
        · exact Or.inr ⟨t, ht, hPt, rfl⟩
    · rw [if_neg hP]
      simp only [List.mem_cons]
      constructor
      · rintro (hy | ⟨t, ht, hPt, rfl⟩)
        · exact Or.inl hy
        · exact Or.inr ⟨t, Or.inr ht, hPt, rfl⟩
      · rintro (hy | ⟨t, (rfl | ht), hPt, rfl⟩)
        · exact Or.inl hy
        · exact absurd hPt hP
        · exact Or.inr ⟨t, ht, hPt, rfl⟩

theorem foldl_insertIfAbsent_fix {α β : Type} [DecidableEq β]
    (P : α → Bool) (g : α → β) (l : List α) (acc : List β)
    (h : ∀ t ∈ l, P t → g t ∈ acc) :
    l.foldl (fun es t => if P t then insertIfAbsent (g t) es else es) acc =
      acc := by
  apply foldl_fix
  intro t ht
  by_cases hP : P t = true
  · rw [if_pos hP]
    exact insertIfAbsent_of_mem (h t ht hP)
  · rw [if_neg hP]

theorem foldl_insertIfAbsent_nodup {α β : Type} [DecidableEq β]
    (P : α → Bool) (g : α → β) (l : List α) (acc : List β)
    (h : acc.Nodup) :
    (l.foldl
      (fun es t => if P t then insertIfAbsent (g t) es else es) acc).Nodup := by
  refine foldl_pres (fun es => es.Nodup) l acc ?_ h
  intro es t _ hnd
  by_cases hP : P t = true
  · rw [if_pos hP]
    exact nodup_insertIfAbsent hnd
  · rw [if_neg hP]
    exact hnd

theorem foldl_insertIfAbsent_eq {α β : Type} [DecidableEq β]
    (P : α → Bool) (g : α → β) :
    ∀ (l : List α) (acc : List β), (l.map g).Nodup →
      (∀ t ∈ l, g t ∉ acc) →
      l.foldl (fun es t => if P t then insertIfAbsent (g t) es else es) acc =
        acc ++ (l.filter P).map g := by
  intro l
  induction l with
  | nil => simp
  | cons x xs ih =>
    intro acc hnd hnin
    have hnd1 : (xs.map g).Nodup := (List.nodup_cons.1 hnd).2
    have hgx : g x ∉ xs.map g := (List.nodup_cons.1 hnd).1
    rw [List.foldl_cons]
    by_cases hP : P x = true
    · rw [if_pos hP]
      rw [insertIfAbsent_of_not_mem (hnin x (List.mem_cons_self x xs))]
      rw [ih (acc ++ [g x]) hnd1 ?_]
      · rw [List.filter_cons_of_pos hP, List.map_cons, List.append_assoc,
          List.singleton_append]
      · intro t ht
        rw [List.mem_append]
        rintro (hin | hin)
        · exact hnin t (List.mem_cons_of_mem x ht) hin
        · simp at hin
          exact hgx (hin ▸ List.mem_map_of_mem g ht)
    · rw [if_neg hP]
      rw [ih acc hnd1 (fun t ht => hnin t (List.mem_cons_of_mem x ht))]
      rw [List.filter_cons_of_neg (by simpa using hP)]

theorem filter_eq_length_one {α : Type} [DecidableEq α] :
    ∀ (l : List α) (a : α), l.Nodup → a ∈ l →
      (l.filter (fun x => decide (x = a))).length = 1 := by
  intro l
  induction l with
  | nil =>
    intro a _ h
    cases h
  | cons x xs ih =>
    intro a hnd hmem
    rw [List.nodup_cons] at hnd
    by_cases hxa : x = a
    · subst hxa
      rw [List.filter_cons_of_pos (by simp)]
      have hnil : xs.filter (fun y => decide (y = x)) = [] := by
        rw [List.filter_eq_nil_iff]
        intro y hy
        simp only [decide_eq_true_eq]
        intro h
        exact hnd.1 (h ▸ hy)
      rw [hnil]
      rfl
    · rcases List.mem_cons.1 hmem with rfl | hmem2
      · exact absurd rfl hxa
      · rw [List.filter_cons_of_neg (by simp [hxa])]
        exact ih a hnd.2 hmem2

theorem compositeId_inj {ref a b : String}
    (h : compositeId ref a = compositeId ref b) : a = b := by
  unfold compositeId at h
  have h2 := congrArg String.data h
  simp only [String.data_append] at h2
  exact String.ext (List.append_cancel_left h2)

/-! ## Which phase of persistence touches which component -/

theorem mergeSugyaRecord_texts (a : SugyaData) (st : GraphState) :
    (mergeSugyaRecord a st).texts = st.texts := rfl

theorem mergeSugyaRecord_dnodes (a : SugyaData) (st : GraphState) :
    (mergeSugyaRecord a st).dnodes = st.dnodes := rfl

theorem mergeSugyaRecord_hasNode (a : SugyaData) (st : GraphState) :
    (mergeSugyaRecord a st).hasNode = st.hasNode := rfl

theorem mergeSugyaRecord_containsText (a : SugyaData) (st : GraphState) :
    (mergeSugyaRecord a st).containsText = st.containsText := rfl

theorem mergeSugyaRecord_leadsTo (a : SugyaData) (st : GraphState) :
    (mergeSugyaRecord a st).leadsTo = st.leadsTo := rfl

theorem mergeSugyaRecord_sugyot (a : SugyaData) (st : GraphState) :
    (mergeSugyaRecord a st).sugyot =
      upsertKV a.ref
        ⟨a.title, a.summary, a.theme, a.main_question, "ai_powered"⟩
        st.sugyot := rfl

theorem linkTexts_texts (a : SugyaData) (st : GraphState) :
    (linkTexts a st).texts = st.texts := by
  unfold linkTexts; split <;> rfl

theorem linkTexts_sugyot (a : SugyaData) (st : GraphState) :
    (linkTexts a st).sugyot = st.sugyot := by
  unfold linkTexts; split <;> rfl

theorem linkTexts_dnodes (a : SugyaData) (st : GraphState) :
    (linkTexts a st).dnodes = st.dnodes := by
  unfold linkTexts; split <;> rfl

theorem linkTexts_hasNode (a : SugyaData) (st : GraphState) :
    (linkTexts a st).hasNode = st.hasNode := by
  unfold linkTexts; split <;> rfl

theorem linkTexts_leadsTo (a : SugyaData) (st : GraphState) :
    (linkTexts a st).leadsTo = st.leadsTo := by
  unfold linkTexts; split <;> rfl

theorem nodePass1Step_texts (ref : String) (s : GraphState)
    (p : Nat × DialecticNodeData) :
    (nodePass1Step ref s p).texts = s.texts := by
  unfold nodePass1Step; split <;> rfl

theorem nodePass1Step_sugyot (ref : String) (s : GraphState)
    (p : Nat × DialecticNodeData) :
    (nodePass1Step ref s p).sugyot = s.sugyot := by
  unfold nodePass1Step; split <;> rfl

theorem nodePass1Step_containsText (ref : String) (s : GraphState)
    (p : Nat × DialecticNodeData) :
    (nodePass1Step ref s p).containsText = s.containsText := by
  unfold nodePass1Step; split <;> rfl

theorem nodePass1Step_leadsTo (ref : String) (s : GraphState)
    (p : Nat × DialecticNodeData) :
    (nodePass1Step ref s p).leadsTo = s.leadsTo := by
  unfold nodePass1Step; split <;> rfl

theorem nodePass2Step_texts (ref : String) (s : GraphState)
    (n : DialecticNodeData) : (nodePass2Step ref s n).texts = s.texts := by
  unfold nodePass2Step
  split
  · rfl
  · split
    · dsimp only
      split
      · rfl
      · rfl
    · rfl

theorem nodePass2Step_sugyot (ref : String) (s : GraphState)
    (n : DialecticNodeData) : (nodePass2Step ref s n).sugyot = s.sugyot := by
  unfold nodePass2Step
  split
  · rfl
  · split
    · dsimp only
      split
      · rfl
      · rfl
    · rfl

theorem nodePass2Step_dnodes (ref : String) (s : GraphState)
    (n : DialecticNodeData) : (nodePass2Step ref s n).dnodes = s.dnodes := by
  unfold nodePass2Step
  split
  · rfl
  · split
    · dsimp only
      split
      · rfl
      · rfl
    · rfl

theorem nodePass2Step_hasNode (ref : String) (s : GraphState)
    (n : DialecticNodeData) :
    (nodePass2Step ref s n).hasNode = s.hasNode := by
  unfold nodePass2Step
  split
  · rfl
  · split
    · dsimp only
      split
      · rfl
      · rfl
    · rfl

theorem nodePass2Step_containsText (ref : String) (s : GraphState)
    (n : DialecticNodeData) :
    (nodePass2Step ref s n).containsText = s.containsText := by
  unfold nodePass2Step
  split
  · rfl
  · split
    · dsimp only
      split
      · rfl
      · rfl
    · rfl

theorem pass1_texts (ref : String) (l : List (Nat × DialecticNodeData))
    (s : GraphState) : (l.foldl (nodePass1Step ref) s).texts = s.texts := by
  refine foldl_pres (fun s1 => s1.texts = s.texts) l s ?_ rfl
  intro s1 x _ h
  rw [nodePass1Step_texts, h]

theorem pass1_sugyot (ref : String) (l : List (Nat × DialecticNodeData))
    (s : GraphState) :
    (l.foldl (nodePass1Step ref) s).sugyot = s.sugyot := by
  refine foldl_pres (fun s1 => s1.sugyot = s.sugyot) l s ?_ rfl
  intro s1 x _ h
  rw [nodePass1Step_sugyot, h]

theorem pass1_containsText (ref : String)
    (l : List (Nat × DialecticNodeData)) (s : GraphState) :
    (l.foldl (nodePass1Step ref) s).containsText = s.containsText := by
  refine foldl_pres (fun s1 => s1.containsText = s.containsText) l s ?_ rfl
  intro s1 x _ h
  rw [nodePass1Step_containsText, h]

theorem pass1_leadsTo (ref : String) (l : List (Nat × DialecticNodeData))
    (s : GraphState) :
    (l.foldl (nodePass1Step ref) s).leadsTo = s.leadsTo := by
  refine foldl_pres (fun s1 => s1.leadsTo = s.leadsTo) l s ?_ rfl
  intro s1 x _ h
  rw [nodePass1Step_leadsTo, h]

theorem pass2_texts (ref : String) (l : List DialecticNodeData)
    (s : GraphState) : (l.foldl (nodePass2Step ref) s).texts = s.texts := by
  refine foldl_pres (fun s1 => s1.texts = s.texts) l s ?_ rfl
  intro s1 x _ h
  rw [nodePass2Step_texts, h]

theorem pass2_sugyot (ref : String) (l : List DialecticNodeData)
    (s : GraphState) :
    (l.foldl (nodePass2Step ref) s).sugyot = s.sugyot := by
  refine foldl_pres (fun s1 => s1.sugyot = s.sugyot) l s ?_ rfl
  intro s1 x _ h
  rw [nodePass2Step_sugyot, h]

theorem pass2_dnodes (ref : String) (l : List DialecticNodeData)
    (s : GraphState) :
    (l.foldl (nodePass2Step ref) s).dnodes = s.dnodes := by
  refine foldl_pres (fun s1 => s1.dnodes = s.dnodes) l s ?_ rfl
  intro s1 x _ h
  rw [nodePass2Step_dnodes, h]

theorem pass2_hasNode (ref : String) (l : List DialecticNodeData)
    (s : GraphState) :
    (l.foldl (nodePass2Step ref) s).hasNode = s.hasNode := by
  refine foldl_pres (fun s1 => s1.hasNode = s.hasNode) l s ?_ rfl
  intro s1 x _ h
  rw [nodePass2Step_hasNode, h]

theorem pass2_containsText (ref : String) (l : List DialecticNodeData)
    (s : GraphState) :
    (l.foldl (nodePass2Step ref) s).containsText = s.containsText := by
  refine foldl_pres (fun s1 => s1.containsText = s.containsText) l s ?_ rfl
  intro s1 x _ h
  rw [nodePass2Step_containsText, h]

/-! ## Characterisation of the two passes of `_create_dialectic_nodes` -/

theorem nodePass1Step_dnodes_pos (ref : String) (s : GraphState)
    (p : Nat × DialecticNodeData) (hg : ref ∈ s.sugyot.map Prod.fst) :
    (nodePass1Step ref s p).dnodes =
      upsertKV (dnodeKey ref p.2) (dnodeProps p) s.dnodes := by
  unfold nodePass1Step
  rw [if_pos hg]

theorem nodePass1Step_hasNode_pos (ref : String) (s : GraphState)
    (p : Nat × DialecticNodeData) (hg : ref ∈ s.sugyot.map Prod.fst) :
    (nodePass1Step ref s p).hasNode =
      insertIfAbsent (ref, compositeId ref p.2.id) s.hasNode := by
  unfold nodePass1Step
  rw [if_pos hg]

theorem mem_fst_dnodes_pass1 (ref : String) :
    ∀ (l : List (Nat × DialecticNodeData)) (s : GraphState),
      ref ∈ s.sugyot.map Prod.fst → ∀ k1,
      (k1 ∈ ((l.foldl (nodePass1Step ref) s).dnodes).map Prod.fst ↔
        k1 ∈ s.dnodes.map Prod.fst ∨ ∃ p ∈ l, k1 = dnodeKey ref p.2) := by
  intro l
  induction l with
  | nil => intro s _ k1; simp
  | cons x xs ih =>
    intro s hg k1
    rw [List.foldl_cons]
    have hg1 : ref ∈ (nodePass1Step ref s x).sugyot.map Prod.fst := by
      rw [nodePass1Step_sugyot]; exact hg
    rw [ih (nodePass1Step ref s x) hg1 k1,
      nodePass1Step_dnodes_pos ref s x hg, mem_fst_upsertKV]
    constructor
    · rintro ((h | rfl) | ⟨p, hp, rfl⟩)
      · exact Or.inl h
      · exact Or.inr ⟨x, List.mem_cons_self x xs, rfl⟩
      · exact Or.inr ⟨p, List.mem_cons_of_mem x hp, rfl⟩
    · rintro (h | ⟨p, hp, rfl⟩)
      · exact Or.inl (Or.inl h)
      · rcases List.mem_cons.1 hp with rfl | hp2
        · exact Or.inl (Or.inr rfl)
        · exact Or.inr ⟨p, hp2, rfl⟩

theorem mem_hasNode_pass1 (ref : String) :
    ∀ (l : List (Nat × DialecticNodeData)) (s : GraphState),
      ref ∈ s.sugyot.map Prod.fst → ∀ y,
      (y ∈ (l.foldl (nodePass1Step ref) s).hasNode ↔
        y ∈ s.hasNode ∨ ∃ p ∈ l, y = (ref, compositeId ref p.2.id)) := by
  intro l
  induction l with
  | nil => intro s _ y; simp
  | cons x xs ih =>
    intro s hg y
    rw [List.foldl_cons]
    have hg1 : ref ∈ (nodePass1Step ref s x).sugyot.map Prod.fst := by
      rw [nodePass1Step_sugyot]; exact hg
    rw [ih (nodePass1Step ref s x) hg1 y,
      nodePass1Step_hasNode_pos ref s x hg, mem_insertIfAbsent]
    constructor
    · rintro ((h | rfl) | ⟨p, hp, rfl⟩)
      · exact Or.inl h
      · exact Or.inr ⟨x, List.mem_cons_self x xs, rfl⟩
      · exact Or.inr ⟨p, List.mem_cons_of_mem x hp, rfl⟩
    · rintro (h | ⟨p, hp, rfl⟩)
      · exact Or.inl (Or.inl h)
      · rcases List.mem_cons.1 hp with rfl | hp2
        · exact Or.inl (Or.inr rfl)
        · exact Or.inr ⟨p, hp2, rfl⟩

theorem pass1_entry_stable (ref : String) (key : String × String)
    (props : DNodeProps) (l : List (Nat × DialecticNodeData))
    (s : GraphState) (hne : ∀ p ∈ l, dnodeKey ref p.2 ≠ key)
    (hbase : ∀ q ∈ s.dnodes, q.1 = key → q = (key, props)) :
    ∀ q ∈ (l.foldl (nodePass1Step ref) s).dnodes, q.1 = key →
      q = (key, props) := by
  refine foldl_pres
    (fun s1 => ∀ q ∈ s1.dnodes, q.1 = key → q = (key, props)) l s ?_ hbase
  intro s1 x hx hP
  unfold nodePass1Step
  by_cases hg : ref ∈ s1.sugyot.map Prod.fst
  · rw [if_pos hg]
    dsimp only
    exact upsertKV_entry_stable (hne x hx) hP
  · rw [if_neg hg]
    exact hP

theorem pass1_entries (ref : String) :
    ∀ (l : List (Nat × DialecticNodeData)),
      (l.map (fun p => dnodeKey ref p.2)).Nodup →
      ∀ (s : GraphState), ref ∈ s.sugyot.map Prod.fst →
      ∀ p ∈ l, ∀ q ∈ (l.foldl (nodePass1Step ref) s).dnodes,
        q.1 = dnodeKey ref p.2 → q = (dnodeKey ref p.2, dnodeProps p) := by
  intro l
  induction l with
  | nil =>
    intro _ s _ p hp
    exact absurd hp (List.not_mem_nil p)
  | cons x xs ih =>
    intro hnd s hg p hp
    rw [List.map_cons, List.nodup_cons] at hnd
    rw [List.foldl_cons]
    have hg1 : ref ∈ (nodePass1Step ref s x).sugyot.map Prod.fst := by
      rw [nodePass1Step_sugyot]; exact hg
    rcases List.mem_cons.1 hp with rfl | hp2
    · apply pass1_entry_stable ref (dnodeKey ref p.2) (dnodeProps p) xs
        (nodePass1Step ref s p) ?_ ?_
      · intro y hy heq
        exact hnd.1 (List.mem_map.2 ⟨y, hy, heq⟩)
      · rw [nodePass1Step_dnodes_pos ref s p hg]
        exact upsertKV_entry s.dnodes
    · exact ih hnd.2 (nodePass1Step ref s x) hg1 p hp2

theorem pass1_nodup_fst (ref : String) (l : List (Nat × DialecticNodeData))
    (s : GraphState) (h : (s.dnodes.map Prod.fst).Nodup) :
    (((l.foldl (nodePass1Step ref) s).dnodes).map Prod.fst).Nodup := by
  refine foldl_pres (fun s1 => ((s1.dnodes).map Prod.fst).Nodup) l s ?_ h
  intro s1 x _ hnd
  unfold nodePass1Step
  by_cases hg : ref ∈ s1.sugyot.map Prod.fst
  · rw [if_pos hg]
    dsimp only
    exact nodup_fst_upsertKV hnd
  · rw [if_neg hg]
    exact hnd

theorem nodePass2Step_leadsTo_mem (ref : String) (s : GraphState)
    (n : DialecticNodeData) (e : String × String) :
    e ∈ (nodePass2Step ref s n).leadsTo ↔
      e ∈ s.leadsTo ∨ ∃ pid, n.parent_id = some pid ∧ pid ≠ "" ∧
        compositeId ref pid ∈ s.dnodes.map (fun q => q.1.1) ∧
        compositeId ref n.id ∈ s.dnodes.map (fun q => q.1.1) ∧
        e = (compositeId ref pid, compositeId ref n.id) := by
  unfold nodePass2Step
  split
  · rename_i heq
    constructor
    · exact Or.inl
    · rintro (h | ⟨pid, hp, _⟩)
      · exact h
      · rw [heq] at hp
        exact Option.noConfusion hp
  · rename_i pid0 heq
    rw [heq]
    by_cases hne : pid0 ≠ ""
    · rw [if_pos hne]
      dsimp only
      by_cases hmem : compositeId ref pid0 ∈ s.dnodes.map (fun q => q.1.1) ∧
          compositeId ref n.id ∈ s.dnodes.map (fun q => q.1.1)
      · rw [if_pos hmem]
        dsimp only
        rw [mem_insertIfAbsent]
        constructor
        · rintro (h | rfl)
          · exact Or.inl h
          · exact Or.inr ⟨pid0, rfl, hne, hmem.1, hmem.2, rfl⟩
        · rintro (h | ⟨pid, hp, _, _, _, rfl⟩)
          · exact Or.inl h
          · cases Option.some.inj hp
            exact Or.inr rfl
      · rw [if_neg hmem]
        constructor
        · exact Or.inl
        · rintro (h | ⟨pid, hp, hpne, h1, h2, _⟩)
          · exact h
          · cases Option.some.inj hp
            exact absurd ⟨h1, h2⟩ hmem
    · rw [if_neg hne]
      constructor
      · exact Or.inl
      · rintro (h | ⟨pid, hp, hpne, _⟩)
        · exact h
        · cases Option.some.inj hp
          exact absurd hpne hne

theorem mem_leadsTo_pass2 (ref : String) :
    ∀ (l : List DialecticNodeData) (s : GraphState) (e : String × String),
      (e ∈ (l.foldl (nodePass2Step ref) s).leadsTo ↔
        e ∈ s.leadsTo ∨ ∃ n ∈ l, ∃ pid, n.parent_id = some pid ∧ pid ≠ "" ∧
          compositeId ref pid ∈ s.dnodes.map (fun q => q.1.1) ∧
          compositeId ref n.id ∈ s.dnodes.map (fun q => q.1.1) ∧
          e = (compositeId ref pid, compositeId ref n.id)) := by
  intro l
  induction l with
  | nil => intro s e; simp
  | cons x xs ih =>
    intro s e
    rw [List.foldl_cons, ih (nodePass2Step ref s x) e, nodePass2Step_dnodes,
      nodePass2Step_leadsTo_mem]
    constructor
    · rintro ((h | hx) | ⟨n, hn, hc⟩)
      · exact Or.inl h
      · exact Or.inr ⟨x, List.mem_cons_self x xs, hx⟩
      · exact Or.inr ⟨n, List.mem_cons_of_mem x hn, hc⟩
    · rintro (h | ⟨n, hn, hc⟩)
      · exact Or.inl (Or.inl h)
      · rcases List.mem_cons.1 hn with rfl | hn2
        · exact Or.inl (Or.inr hc)
        · exact Or.inr ⟨n, hn2, hc⟩

theorem pass1_fix (ref : String) (l : List (Nat × DialecticNodeData))
    (s : GraphState) (hg : ref ∈ s.sugyot.map Prod.fst)
    (hmem : ∀ p ∈ l, dnodeKey ref p.2 ∈ s.dnodes.map Prod.fst)
    (hent : ∀ p ∈ l, ∀ q ∈ s.dnodes, q.1 = dnodeKey ref p.2 →
      q = (dnodeKey ref p.2, dnodeProps p))
    (hedge : ∀ p ∈ l, (ref, compositeId ref p.2.id) ∈ s.hasNode) :
    l.foldl (nodePass1Step ref) s = s := by
  apply foldl_fix
  intro p hp
  unfold nodePass1Step
  rw [if_pos hg]
  dsimp only
  rw [upsertKV_of_entry (hmem p hp) (hent p hp),
    insertIfAbsent_of_mem (hedge p hp)]

theorem pass2_fix (ref : String) (l : List DialecticNodeData)
    (s : GraphState)
    (h : ∀ n ∈ l, ∀ pid, n.parent_id = some pid → pid ≠ "" →
      compositeId ref pid ∈ s.dnodes.map (fun q => q.1.1) →
      compositeId ref n.id ∈ s.dnodes.map (fun q => q.1.1) →
      (compositeId ref pid, compositeId ref n.id) ∈ s.leadsTo) :
    l.foldl (nodePass2Step ref) s = s := by
  apply foldl_fix
  intro n hn
  unfold nodePass2Step
  split
  · rfl
  · rename_i pid heq
    by_cases hne : pid ≠ ""
    · rw [if_pos hne]
      dsimp only
      by_cases hmem : compositeId ref pid ∈ s.dnodes.map (fun q => q.1.1) ∧
          compositeId ref n.id ∈ s.dnodes.map (fun q => q.1.1)
      · rw [if_pos hmem]
        rw [insertIfAbsent_of_mem (h n hn pid heq hne hmem.1 hmem.2)]
      · rw [if_neg hmem]
    · rw [if_neg hne]

/-! ## Characterisation of `saveSugyaPure` -/

theorem dnodeKeys_nodup (ref : String) (N : List DialecticNodeData)
    (hids : (N.map DialecticNodeData.id).Nodup) :
    (N.enum.map (fun p => dnodeKey ref p.2)).Nodup := by
  have h1 : N.enum.map (fun p => dnodeKey ref p.2) =
      (N.map DialecticNodeData.id).map
        (fun i => (compositeId ref i, ref)) := by
    rw [List.map_map,
      show (fun p : Nat × DialecticNodeData => dnodeKey ref p.2) =
        (fun n => dnodeKey ref n) ∘ Prod.snd from rfl,
      ← List.map_map, List.enum_map_snd]
    rfl
  rw [h1]
  refine List.Nodup.map ?_ hids
  intro i j hij
  exact compositeId_inj (congrArg Prod.fst hij)

theorem saveSugyaPure_texts (a : SugyaData) (st : GraphState) :
    (saveSugyaPure a st).texts = st.texts := by
  unfold saveSugyaPure
  dsimp only
  split
  · unfold create_dialectic_nodes
    dsimp only
    rw [pass2_texts, pass1_texts, linkTexts_texts, mergeSugyaRecord_texts]
  · rw [linkTexts_texts, mergeSugyaRecord_texts]

theorem saveSugyaPure_sugyot (a : SugyaData) (st : GraphState) :
    (saveSugyaPure a st).sugyot =
      upsertKV a.ref
        ⟨a.title, a.summary, a.theme, a.main_question, "ai_powered"⟩
        st.sugyot := by
  unfold saveSugyaPure
  dsimp only
  split
  · unfold create_dialectic_nodes
    dsimp only
    rw [pass2_sugyot, pass1_sugyot, linkTexts_sugyot, mergeSugyaRecord_sugyot]
  · rw [linkTexts_sugyot, mergeSugyaRecord_sugyot]

theorem ref_mem_saveSugyaPure (a : SugyaData) (st : GraphState) :
    a.ref ∈ (saveSugyaPure a st).sugyot.map Prod.fst := by
  rw [saveSugyaPure_sugyot]
  exact mem_fst_upsertKV.2 (Or.inr rfl)

theorem sugyot_entry_saveSugyaPure (a : SugyaData) (st : GraphState) :
    ∀ q ∈ (saveSugyaPure a st).sugyot, q.1 = a.ref →
      q = (a.ref,
        ⟨a.title, a.summary, a.theme, a.main_question, "ai_powered"⟩) := by
  rw [saveSugyaPure_sugyot]
  exact upsertKV_entry st.sugyot

theorem ref_mem_mergeSugyaRecord (a : SugyaData) (st : GraphState) :
    a.ref ∈ (mergeSugyaRecord a st).sugyot.map Prod.fst := by
  rw [mergeSugyaRecord_sugyot]
  exact mem_fst_upsertKV.2 (Or.inr rfl)

theorem mem_containsText_saveSugyaPure (a : SugyaData) (st : GraphState)
    (e : String × String) :
    e ∈ (saveSugyaPure a st).containsText ↔
      e ∈ st.containsText ∨
        ∃ t ∈ st.texts, strContains t.id a.ref ∧ e = (a.ref, t.id) := by
  have h1 : (saveSugyaPure a st).containsText =
      (linkTexts a (mergeSugyaRecord a st)).containsText := by
    unfold saveSugyaPure
    dsimp only
    split
    · unfold create_dialectic_nodes
      dsimp only
      rw [pass2_containsText, pass1_containsText]
    · rfl
  rw [h1]
  unfold linkTexts
  rw [if_pos (ref_mem_mergeSugyaRecord a st)]
  dsimp only
  rw [foldl_insertIfAbsent_mem, mergeSugyaRecord_containsText,
    mergeSugyaRecord_texts]

theorem saveSugyaPure_dnodes_eq (a : SugyaData) (st : GraphState)
    (hN : a.dialectic_nodes ≠ []) :
    (saveSugyaPure a st).dnodes =
      (a.dialectic_nodes.enum.foldl (nodePass1Step a.ref)
        (linkTexts a (mergeSugyaRecord a st))).dnodes := by
  unfold saveSugyaPure
  dsimp only
  rw [if_pos hN]
  unfold create_dialectic_nodes
  dsimp only
  rw [pass2_dnodes]

theorem saveSugyaPure_dnodes_nil (a : SugyaData) (st : GraphState)
    (hN : a.dialectic_nodes = []) :
    (saveSugyaPure a st).dnodes = st.dnodes := by
  unfold saveSugyaPure
  dsimp only
  rw [if_neg (by simp [hN]), linkTexts_dnodes, mergeSugyaRecord_dnodes]

theorem mem_fst_dnodes_saveSugyaPure (a : SugyaData) (st : GraphState)
    (hN : a.dialectic_nodes ≠ []) (k1 : String × String) :
    k1 ∈ (saveSugyaPure a st).dnodes.map Prod.fst ↔
      k1 ∈ st.dnodes.map Prod.fst ∨
        ∃ p ∈ a.dialectic_nodes.enum, k1 = dnodeKey a.ref p.2 := by
  rw [saveSugyaPure_dnodes_eq a st hN]
  have hg : a.ref ∈
      (linkTexts a (mergeSugyaRecord a st)).sugyot.map Prod.fst := by
    rw [linkTexts_sugyot]
    exact ref_mem_mergeSugyaRecord a st
  rw [mem_fst_dnodes_pass1 a.ref a.dialectic_nodes.enum
    (linkTexts a (mergeSugyaRecord a st)) hg k1, linkTexts_dnodes,
    mergeSugyaRecord_dnodes]

theorem dnodes_entry_saveSugyaPure (a : SugyaData) (st : GraphState)
    (hids : (a.dialectic_nodes.map DialecticNodeData.id).Nodup) :
    ∀ p ∈ a.dialectic_nodes.enum, ∀ q ∈ (saveSugyaPure a st).dnodes,
      q.1 = dnodeKey a.ref p.2 → q = (dnodeKey a.ref p.2, dnodeProps p) := by
  intro p hp
  have hN : a.dialectic_nodes ≠ [] := by
    intro h
    rw [h] at hp
    exact absurd hp (List.not_mem_nil p)
  have hg : a.ref ∈
      (linkTexts a (mergeSugyaRecord a st)).sugyot.map Prod.fst := by
    rw [linkTexts_sugyot]
    exact ref_mem_mergeSugyaRecord a st
  rw [saveSugyaPure_dnodes_eq a st hN]
  exact pass1_entries a.ref a.dialectic_nodes.enum
    (dnodeKeys_nodup a.ref a.dialectic_nodes hids)
    (linkTexts a (mergeSugyaRecord a st)) hg p hp

theorem mem_hasNode_saveSugyaPure (a : SugyaData) (st : GraphState)
    (hN : a.dialectic_nodes ≠ []) (y : String × String) :
    y ∈ (saveSugyaPure a st).hasNode ↔
      y ∈ st.hasNode ∨
        ∃ p ∈ a.dialectic_nodes.enum,
          y = (a.ref, compositeId a.ref p.2.id) := by
  have hg : a.ref ∈
      (linkTexts a (mergeSugyaRecord a st)).sugyot.map Prod.fst := by
    rw [linkTexts_sugyot]
    exact ref_mem_mergeSugyaRecord a st
  have h1 : (saveSugyaPure a st).hasNode =
      (a.dialectic_nodes.enum.foldl (nodePass1Step a.ref)
        (linkTexts a (mergeSugyaRecord a st))).hasNode := by
    unfold saveSugyaPure
    dsimp only
    rw [if_pos hN]
    unfold create_dialectic_nodes
    dsimp only
    rw [pass2_hasNode]
  rw [h1, mem_hasNode_pass1 a.ref a.dialectic_nodes.enum
    (linkTexts a (mergeSugyaRecord a st)) hg y, linkTexts_hasNode,
    mergeSugyaRecord_hasNode]

theorem mem_leadsTo_saveSugyaPure (a : SugyaData) (st : GraphState)
    (hN : a.dialectic_nodes ≠ []) (e : String × String) :
    e ∈ (saveSugyaPure a st).leadsTo ↔
      e ∈ st.leadsTo ∨
        ∃ n ∈ a.dialectic_nodes, ∃ pid, n.parent_id = some pid ∧ pid ≠ "" ∧
          compositeId a.ref pid ∈
            (saveSugyaPure a st).dnodes.map (fun q => q.1.1) ∧
          compositeId a.ref n.id ∈
            (saveSugyaPure a st).dnodes.map (fun q => q.1.1) ∧
          e = (compositeId a.ref pid, compositeId a.ref n.id) := by
  have h1 : (saveSugyaPure a st).leadsTo =
      (a.dialectic_nodes.foldl (nodePass2Step a.ref)
        (a.dialectic_nodes.enum.foldl (nodePass1Step a.ref)
          (linkTexts a (mergeSugyaRecord a st)))).leadsTo := by
    unfold saveSugyaPure
    dsimp only
    rw [if_pos hN]
    unfold create_dialectic_nodes
    dsimp only
  rw [h1, mem_leadsTo_pass2, pass1_leadsTo, linkTexts_leadsTo,
    mergeSugyaRecord_leadsTo, ← saveSugyaPure_dnodes_eq a st hN]

theorem saveSugyaPure_leadsTo_nil (a : SugyaData) (st : GraphState)
    (hN : a.dialectic_nodes = []) :
    (saveSugyaPure a st).leadsTo = st.leadsTo := by
  unfold saveSugyaPure
  dsimp only
  rw [if_neg (by simp [hN]), linkTexts_leadsTo, mergeSugyaRecord_leadsTo]

theorem saveSugyaPure_containsText_eq (a : SugyaData) (st : GraphState) :
    (saveSugyaPure a st).containsText =
      (linkTexts a (mergeSugyaRecord a st)).containsText := by
  unfold saveSugyaPure
  dsimp only
  split
  · unfold create_dialectic_nodes
    dsimp only
    rw [pass2_containsText, pass1_containsText]
  · rfl

theorem nodup_fst_dnodes_saveSugyaPure (a : SugyaData) (st : GraphState)
    (h : (st.dnodes.map Prod.fst).Nodup) :
    ((saveSugyaPure a st).dnodes.map Prod.fst).Nodup := by
  by_cases hN : a.dialectic_nodes = []
  · rw [saveSugyaPure_dnodes_nil a st hN]
    exact h
  · rw [saveSugyaPure_dnodes_eq a st hN]
    apply pass1_nodup_fst
    rw [linkTexts_dnodes, mergeSugyaRecord_dnodes]
    exact h

theorem nodup_containsText_saveSugyaPure (a : SugyaData) (st : GraphState)
    (h : st.containsText.Nodup) :
    (saveSugyaPure a st).containsText.Nodup := by
  rw [saveSugyaPure_containsText_eq]
  unfold linkTexts
  rw [if_pos (ref_mem_mergeSugyaRecord a st)]
  dsimp only
  apply foldl_insertIfAbsent_nodup
  rw [mergeSugyaRecord_containsText]
  exact h

theorem nodePass2Step_leadsTo_nodup (ref : String) (s : GraphState)
    (n : DialecticNodeData) (h : s.leadsTo.Nodup) :
    (nodePass2Step ref s n).leadsTo.Nodup := by
  unfold nodePass2Step
  split
  · exact h
  · split
    · dsimp only
      split
      · exact nodup_insertIfAbsent h
      · exact h
    · exact h

theorem nodup_leadsTo_saveSugyaPure (a : SugyaData) (st : GraphState)
    (h : st.leadsTo.Nodup) : (saveSugyaPure a st).leadsTo.Nodup := by
  by_cases hN : a.dialectic_nodes = []
  · rw [saveSugyaPure_leadsTo_nil a st hN]
    exact h
  · have h1 : (saveSugyaPure a st).leadsTo =
        (a.dialectic_nodes.foldl (nodePass2Step a.ref)
          (a.dialectic_nodes.enum.foldl (nodePass1Step a.ref)
            (linkTexts a (mergeSugyaRecord a st)))).leadsTo := by
      unfold saveSugyaPure
      dsimp only
      rw [if_pos hN]
      unfold create_dialectic_nodes
      dsimp only
    rw [h1]
    refine foldl_pres (fun s1 : GraphState => s1.leadsTo.Nodup) _ _ ?_ ?_
    · intro s1 x _ hnd
      exact nodePass2Step_leadsTo_nodup a.ref s1 x hnd
    · dsimp only
      rw [pass1_leadsTo, linkTexts_leadsTo, mergeSugyaRecord_leadsTo]
      exact h

theorem saveSugyaPure_idem (a : SugyaData) (st : GraphState)
    (hids : (a.dialectic_nodes.map DialecticNodeData.id).Nodup) :
    saveSugyaPure a (saveSugyaPure a st) = saveSugyaPure a st := by
  have hmerge : mergeSugyaRecord a (saveSugyaPure a st) =
      saveSugyaPure a st := by
    unfold mergeSugyaRecord
    dsimp only
    rw [upsertKV_of_entry (ref_mem_saveSugyaPure a st)
      (sugyot_entry_saveSugyaPure a st)]
  have hlink : linkTexts a (saveSugyaPure a st) = saveSugyaPure a st := by
    unfold linkTexts
    rw [if_pos (ref_mem_saveSugyaPure a st)]
    dsimp only
    have hfix : (saveSugyaPure a st).texts.foldl
        (fun es t =>
          if strContains t.id a.ref then insertIfAbsent (a.ref, t.id) es
          else es)
        (saveSugyaPure a st).containsText =
        (saveSugyaPure a st).containsText := by
      apply foldl_insertIfAbsent_fix
      intro t ht hP
      rw [saveSugyaPure_texts] at ht
      exact (mem_containsText_saveSugyaPure a st (a.ref, t.id)).2
        (Or.inr ⟨t, ht, hP, rfl⟩)
    rw [hfix]
  have hsave_eq : ∀ X : GraphState, saveSugyaPure a X =
      (if a.dialectic_nodes ≠ [] then
        create_dialectic_nodes a (linkTexts a (mergeSugyaRecord a X))
      else linkTexts a (mergeSugyaRecord a X)) := fun X => rfl
  by_cases hN : a.dialectic_nodes = []
  · rw [hsave_eq (saveSugyaPure a st), if_neg (by simp [hN]), hmerge, hlink]
  · have hpass1 : a.dialectic_nodes.enum.foldl (nodePass1Step a.ref)
        (saveSugyaPure a st) = saveSugyaPure a st := by
      apply pass1_fix
      · exact ref_mem_saveSugyaPure a st
      · intro p hp
        exact (mem_fst_dnodes_saveSugyaPure a st hN _).2
          (Or.inr ⟨p, hp, rfl⟩)
      · exact dnodes_entry_saveSugyaPure a st hids
      · intro p hp
        exact (mem_hasNode_saveSugyaPure a st hN _).2 (Or.inr ⟨p, hp, rfl⟩)
    have hpass2 : a.dialectic_nodes.foldl (nodePass2Step a.ref)
        (saveSugyaPure a st) = saveSugyaPure a st := by
      apply pass2_fix
      intro n hn pid hpar hne h1 h2
      exact (mem_leadsTo_saveSugyaPure a st hN _).2
        (Or.inr ⟨n, hn, pid, hpar, hne, h1, h2, rfl⟩)
    rw [hsave_eq (saveSugyaPure a st), if_pos hN, hmerge, hlink]
    unfold create_dialectic_nodes
    dsimp only
    rw [hpass1, hpass2]

theorem save_sugya_to_database_ok (dbFail : String → Bool) (a : SugyaData)
    (st : GraphState) (hdb : dbFail a.ref = false) :
    save_sugya_to_database dbFail a st = (true, saveSugyaPure a st) := by
  unfold save_sugya_to_database
  rw [if_neg (by simp [hdb])]

theorem saveSugyaPure_containsText_of_empty (a : SugyaData)
    (st : GraphState) (h0 : st.containsText = [])
    (hids : (st.texts.map TextRec.id).Nodup) :
    (saveSugyaPure a st).containsText =
      (st.texts.filter (fun t => strContains t.id a.ref)).map
        (fun t => (a.ref, t.id)) := by
  have hnd : (st.texts.map (fun t => ((a.ref : String), t.id))).Nodup := by
    have h1 : st.texts.map (fun t => ((a.ref : String), t.id)) =
        (st.texts.map TextRec.id).map (fun i => (a.ref, i)) := by
      rw [List.map_map]
      rfl
    rw [h1]
    refine List.Nodup.map ?_ hids
    intro i j hij
    exact congrArg Prod.snd hij
  rw [saveSugyaPure_containsText_eq]
  unfold linkTexts
  rw [if_pos (ref_mem_mergeSugyaRecord a st)]
  dsimp only
  rw [mergeSugyaRecord_containsText, mergeSugyaRecord_texts, h0,
    foldl_insertIfAbsent_eq (fun t => strContains t.id a.ref)
      (fun t => (a.ref, t.id)) st.texts [] hnd (by simp),
    List.nil_append]

/-! ## Claim theorems: persistence (C1, C7, C10) -/

/-- C1: Persistence is idempotent.  Running `save_sugya_to_database` twice
on the same analysis (same `ref`, same node local-id set; local ids are
unique within an analysis per the data model) leaves the graph store equal
to its state after the first run; in particular it holds exactly one Sugya
record keyed by the ref, exactly one DialecticNode record per distinct
local id (keyed by the composite id and the sugya ref), and the containment
and leads-to edge lists are unchanged by the second run and hold no
duplicates.  Hypotheses: the driver does not fail these saves, and the
starting store has no duplicate record keys or edges. -/
theorem sugya_persistence_idempotent (dbF : String → Bool) (a : SugyaData)
    (st : GraphState) (hdb : dbF a.ref = false)
    (hids : (a.dialectic_nodes.map DialecticNodeData.id).Nodup)
    (hsug : (st.sugyot.map Prod.fst).Nodup)
    (hdn : (st.dnodes.map Prod.fst).Nodup)
    (hct : st.containsText.Nodup) (hlt : st.leadsTo.Nodup) :
    (save_sugya_to_database dbF a
        ((save_sugya_to_database dbF a st).2)).2 =
      (save_sugya_to_database dbF a st).2 ∧
    (((save_sugya_to_database dbF a
        ((save_sugya_to_database dbF a st).2)).2.sugyot.map
          Prod.fst).filter (fun k => k = a.ref)).length = 1 ∧
    (∀ n ∈ a.dialectic_nodes,
      (((save_sugya_to_database dbF a
          ((save_sugya_to_database dbF a st).2)).2.dnodes.map
            Prod.fst).filter
          (fun k => k = (compositeId a.ref n.id, a.ref))).length = 1) ∧
    (save_sugya_to_database dbF a
        ((save_sugya_to_database dbF a st).2)).2.containsText.Nodup ∧
    (save_sugya_to_database dbF a
        ((save_sugya_to_database dbF a st).2)).2.leadsTo.Nodup := by
  have e1 := save_sugya_to_database_ok dbF a st hdb
  rw [e1]
  have e2 := save_sugya_to_database_ok dbF a (saveSugyaPure a st) hdb
  rw [e2]
  rw [show ((true, saveSugyaPure a (saveSugyaPure a st)) :
    Bool × GraphState).2 = saveSugyaPure a (saveSugyaPure a st) from rfl]
  rw [saveSugyaPure_idem a st hids]
  refine ⟨rfl, ?_, ?_, ?_, ?_⟩
  · rw [saveSugyaPure_sugyot]
    exact filter_eq_length_one _ a.ref (nodup_fst_upsertKV hsug)
      (mem_fst_upsertKV.2 (Or.inr rfl))
  · intro n hn
    have hN : a.dialectic_nodes ≠ [] := List.ne_nil_of_mem hn
    have hn2 : n ∈ a.dialectic_nodes.enum.map Prod.snd := by
      rw [List.enum_map_snd]
      exact hn
    obtain ⟨p, hp, hpe⟩ := List.mem_map.1 hn2
    refine filter_eq_length_one _ _
      (nodup_fst_dnodes_saveSugyaPure a st hdn) ?_
    refine (mem_fst_dnodes_saveSugyaPure a st hN _).2 (Or.inr ⟨p, hp, ?_⟩)
    rw [← hpe]
    rfl
  · exact nodup_containsText_saveSugyaPure a st hct
  · exact nodup_leadsTo_saveSugyaPure a st hlt

/-- Closed instance of C1: persisting a two-node Berakhot 2a analysis twice
into a store of three texts leaves the store exactly as after the first
save. -/
theorem sugya_persistence_idempotent_witness :
    (save_sugya_to_database noDbFailure berakhotAnalysis
        ((save_sugya_to_database noDbFailure berakhotAnalysis
          berakhotStore).2)).2 =
      (save_sugya_to_database noDbFailure berakhotAnalysis
        berakhotStore).2 :=
  (sugya_persistence_idempotent noDbFailure berakhotAnalysis berakhotStore
    rfl (by decide) (by decide) (by decide) (by decide) (by decide)).1

/-- C7: Persistence creates a containment edge from the Sugya to exactly
those text records whose id contains the Sugya ref as a substring: starting
from a store with no containment edges (and distinct text ids), the edge
list after a successful save is exactly the ref-containing texts, in store
order. -/
theorem containment_edges_substring_rule (dbF : String → Bool)
    (a : SugyaData) (st : GraphState) (hdb : dbF a.ref = false)
    (h0 : st.containsText = [])
    (hids : (st.texts.map TextRec.id).Nodup) :
    (save_sugya_to_database dbF a st).2.containsText =
      (st.texts.filter (fun t => strContains t.id a.ref)).map
        (fun t => (a.ref, t.id)) := by
  rw [save_sugya_to_database_ok dbF a st hdb]
  exact saveSugyaPure_containsText_of_empty a st h0 hids

/-- Closed instance of C7: with ref `Berakhot 2a` and texts `Berakhot 2a:1`,
`Berakhot 2a:2`, `Shabbat 2a:1` in the store, containment edges go to the
first two texts only. -/
theorem containment_edges_substring_rule_witness :
    (save_sugya_to_database noDbFailure berakhotAnalysis
        berakhotStore).2.containsText =
      [("Berakhot 2a", "Berakhot 2a:1"), ("Berakhot 2a", "Berakhot 2a:2")] :=
  (containment_edges_substring_rule noDbFailure berakhotAnalysis
    berakhotStore rfl rfl (by decide)).trans (by decide)

/-- C10: Dangling-parent tolerance.  When a node declares a non-empty
parent local id matching no local id of the analysis (and no composite key
already in the store), `save_sugya_to_database` still returns `True`, the
node record itself is created in the first pass, and the second pass
creates no leads-to edge for the dangling reference. -/
theorem dangling_parent_tolerated (dbF : String → Bool) (a : SugyaData)
    (st : GraphState) (n : DialecticNodeData) (pid : String)
    (hdb : dbF a.ref = false) (hn : n ∈ a.dialectic_nodes)
    (hpar : n.parent_id = some pid) (hne : pid ≠ "")
    (hnolocal : pid ∉ a.dialectic_nodes.map DialecticNodeData.id)
    (hnostore : ∀ k ∈ st.dnodes.map Prod.fst,
      k.1 ≠ compositeId a.ref pid)
    (hnoedge : (compositeId a.ref pid, compositeId a.ref n.id) ∉
      st.leadsTo) :
    (save_sugya_to_database dbF a st).1 = true ∧
    (compositeId a.ref n.id, a.ref) ∈
      (save_sugya_to_database dbF a st).2.dnodes.map Prod.fst ∧
    (compositeId a.ref pid, compositeId a.ref n.id) ∉
      (save_sugya_to_database dbF a st).2.leadsTo := by
  rw [save_sugya_to_database_ok dbF a st hdb]
  have hN : a.dialectic_nodes ≠ [] := List.ne_nil_of_mem hn
  have hn2 : n ∈ a.dialectic_nodes.enum.map Prod.snd := by
    rw [List.enum_map_snd]
    exact hn
  obtain ⟨p, hp, hpe⟩ := List.mem_map.1 hn2
  refine ⟨rfl, ?_, ?_⟩
  · refine (mem_fst_dnodes_saveSugyaPure a st hN _).2 (Or.inr ⟨p, hp, ?_⟩)
    rw [← hpe]
    rfl
  · intro hmem
    rcases (mem_leadsTo_saveSugyaPure a st hN _).1 hmem with
      h | ⟨m, _, q, _, _, hq1, _, heq⟩
    · exact hnoedge h
    · have hq_pid : pid = q := compositeId_inj (congrArg Prod.fst heq)
      rw [← hq_pid] at hq1
      obtain ⟨r, hr, hr1⟩ := List.mem_map.1 hq1
      have hr2 : r.1 ∈ (saveSugyaPure a st).dnodes.map Prod.fst :=
        List.mem_map_of_mem Prod.fst hr
      rcases (mem_fst_dnodes_saveSugyaPure a st hN r.1).1 hr2 with
        hst | ⟨p2, hp2, hkey⟩
      · exact hnostore r.1 hst hr1
      · have hid_eq : p2.2.id = pid := by
          apply compositeId_inj
          rw [show compositeId a.ref p2.2.id = r.1.1 from by rw [hkey]; rfl]
          exact hr1
        apply hnolocal
        rw [← hid_eq]
        apply List.mem_map_of_mem DialecticNodeData.id
        have : p2.2 ∈ a.dialectic_nodes.enum.map Prod.snd :=
          List.mem_map_of_mem Prod.snd hp2
        rw [List.enum_map_snd] at this
        exact this

/-- Closed instance of C10: a two-node analysis whose second node points at
the absent parent local id `9` still saves successfully, creates the node
record `Alpha 2a-2`, and creates no leads-to edge for the dangling
reference. -/
theorem dangling_parent_tolerated_witness :
    (save_sugya_to_database noDbFailure danglingAnalysis emptyStore).1 =
      true ∧
    (compositeId danglingAnalysis.ref "2", danglingAnalysis.ref) ∈
      (save_sugya_to_database noDbFailure danglingAnalysis
        emptyStore).2.dnodes.map Prod.fst ∧
    (compositeId danglingAnalysis.ref "9",
        compositeId danglingAnalysis.ref "2") ∉
      (save_sugya_to_database noDbFailure danglingAnalysis
        emptyStore).2.leadsTo :=
  dangling_parent_tolerated noDbFailure danglingAnalysis emptyStore
    ⟨"2", "kasha", "l", "Gemara", "c", some "9"⟩ "9" rfl (by decide) rfl
    (by decide) (by decide) (by decide) (by decide)

/-! ## Shape of the fallback node list -/

theorem derived_get (L : List String) (k : Nat) (hk : k < L.length) :
    ((L.enum.map (fun p => mkSimNode (p.1 + 1) p.2))[k]?.map
        DialecticNodeData.id = some (natToStr (k + 1))) ∧
      ((L.enum.map (fun p => mkSimNode (p.1 + 1) p.2))[k]?.bind
        DialecticNodeData.parent_id =
          if k = 0 then none else some (natToStr k)) := by
  have hline : (L.enum.map (fun p => mkSimNode (p.1 + 1) p.2))[k]? =
      some (mkSimNode (k + 1) (L.get ⟨k, hk⟩)) := by
    rw [List.getElem?_map, List.getElem?_enum,
      List.getElem?_eq_getElem hk]
    rfl
  rw [hline]
  refine ⟨rfl, ?_⟩
  by_cases hk0 : k = 0
  · subst hk0
    rw [if_pos rfl]
    rfl
  · rw [if_neg hk0]
    show (mkSimNode (k + 1) (L.get ⟨k, hk⟩)).parent_id = some (natToStr k)
    unfold mkSimNode
    dsimp only
    rw [if_pos (by omega : k + 1 > 1), Nat.add_sub_cancel]

theorem additionalNodes_get (b j : Nat) (hj : j < 4) :
    ((additionalNodes b)[j]?.map DialecticNodeData.id =
        some (natToStr (b + j + 1))) ∧
      ((additionalNodes b)[j]?.bind DialecticNodeData.parent_id =
        some (natToStr (b + j))) := by
  interval_cases j <;> exact ⟨rfl, rfl⟩

theorem additionalNodes_length (b : Nat) : (additionalNodes b).length = 4 :=
  rfl

theorem simulatedNodes_length (c : String) :
    (simulatedNodes c).length =
      if ((contentLines c).take 15).length < 5 then
        ((contentLines c).take 15).length + 4
      else ((contentLines c).take 15).length := by
  have hd : (((contentLines c).take 15).enum.map
      (fun p => mkSimNode (p.1 + 1) p.2)).length =
      ((contentLines c).take 15).length := by
    rw [List.length_map, List.enum_length]
  unfold simulatedNodes
  dsimp only
  split
  · rename_i h1
    rw [List.length_append, additionalNodes_length, hd,
      if_pos (by rw [hd] at h1; exact h1)]
  · rename_i h1
    rw [hd, if_neg (by rw [hd] at h1; exact h1)]

theorem simulatedNodes_spec (c : String) (k : Nat)
    (h : k < (simulatedNodes c).length) :
    (simulatedNodes c)[k]?.map DialecticNodeData.id =
        some (natToStr (k + 1)) ∧
      (simulatedNodes c)[k]?.bind DialecticNodeData.parent_id =
        (if k = 0 then
          (if ((contentLines c).take 15).length = 0 then
            some (natToStr 0)
          else none)
        else some (natToStr k)) := by
  set derived := ((contentLines c).take 15).enum.map
    (fun p => mkSimNode (p.1 + 1) p.2) with hderived
  have hd : derived.length = ((contentLines c).take 15).length := by
    rw [hderived, List.length_map, List.enum_length]
  have hform : simulatedNodes c =
      (if derived.length < 5 then
        derived ++ additionalNodes derived.length
      else derived) := rfl
  rw [hform] at h ⊢
  by_cases hlt : derived.length < 5
  · rw [if_pos hlt] at h ⊢
    rw [List.getElem?_append]
    by_cases hk : k < derived.length
    · rw [if_pos hk]
      obtain ⟨h1, h2⟩ := derived_get ((contentLines c).take 15) k
        (hd ▸ hk)
      rw [← hderived] at h1 h2
      refine ⟨h1, ?_⟩
      rw [h2]
      by_cases hk0 : k = 0
      · subst hk0
        have hL0 : ¬ (((contentLines c).take 15).length = 0) := by omega
        simp [hL0]
        rw [if_neg (fun hnil => hL0 (by rw [hnil]; rfl))]
      · rw [if_neg hk0, if_neg hk0]
    · rw [if_neg hk]
      have hj : k - derived.length < 4 := by
        rw [List.length_append,
          show (additionalNodes derived.length).length = 4 from rfl] at h
        omega
      obtain ⟨h1, h2⟩ := additionalNodes_get derived.length
        (k - derived.length) hj
      have hbk : derived.length + (k - derived.length) = k := by omega
      constructor
      · rw [h1, hbk]
      · rw [h2]
        by_cases hk0 : k = 0
        · have hb0 : derived.length = 0 := by omega
          have hL0 : ((contentLines c).take 15).length = 0 := by omega
          subst hk0
          rw [hb0]
          simp [hL0]
        · rw [hbk, if_neg hk0]
  · rw [if_neg hlt] at h ⊢
    obtain ⟨h1, h2⟩ := derived_get ((contentLines c).take 15) k (hd ▸ h)
    rw [← hderived] at h1 h2
    refine ⟨h1, ?_⟩
    rw [h2]
    by_cases hk0 : k = 0
    · subst hk0
      have hL0 : ¬ (((contentLines c).take 15).length = 0) := by omega
      simp [hL0]
      rw [if_neg (fun hnil => hL0 (by rw [hnil]; rfl))]
    · rw [if_neg hk0, if_neg hk0]

/-! ## Claim theorems: the fallback strategy (C3, C6) -/

/-- C3 counterexample: on the empty string the fallback derives zero content
nodes (fewer than 5), yet the returned analysis has only 4 nodes — the
four generic padding nodes — refuting the at-least-5 part of the claim for
this input. -/
theorem fallback_min_five_counterexample :
    contentLines "" = [] ∧
      (simulate_ai_analysis "Berakhot 2a" "").dialectic_nodes.length = 4 ∧
      ¬ (5 ≤ (simulate_ai_analysis "Berakhot 2a"
        "").dialectic_nodes.length) := by
  decide

/-- C3 (amended): for every input text, the fallback strategy returns
derived + 4 nodes when fewer than 5 were derived from the content lines
(hence at least 5 whenever at least one line was derived, but exactly 4 on
empty or whitespace-only input), and the full derived count otherwise;
every node after the first carries the immediately preceding node local id
as its parent (a local id appearing earlier in the sequence), and the first
node has a null parent whenever at least one content line was derived. -/
theorem fallback_node_count_and_chain (page_ref content : String) :
    ((simulate_ai_analysis page_ref content).dialectic_nodes.length =
      if ((contentLines content).take 15).length < 5 then
        ((contentLines content).take 15).length + 4
      else ((contentLines content).take 15).length) ∧
    (∀ k : Nat, k + 1 <
        (simulate_ai_analysis page_ref content).dialectic_nodes.length →
      (simulate_ai_analysis page_ref content).dialectic_nodes[k + 1]?.bind
          DialecticNodeData.parent_id =
        (simulate_ai_analysis page_ref
          content).dialectic_nodes[k]?.map DialecticNodeData.id) ∧
    (0 < (contentLines content).length →
      (simulate_ai_analysis page_ref content).dialectic_nodes[0]?.bind
        DialecticNodeData.parent_id = none) := by
  have hnodes : (simulate_ai_analysis page_ref content).dialectic_nodes =
      simulatedNodes content := rfl
  rw [hnodes]
  refine ⟨simulatedNodes_length content, ?_, ?_⟩
  · intro k hk1
    have hk : k < (simulatedNodes content).length := by omega
    obtain ⟨_, hpara⟩ := simulatedNodes_spec content (k + 1) hk1
    obtain ⟨hidb, _⟩ := simulatedNodes_spec content k hk
    rw [hpara, hidb, if_neg (by omega : ¬ (k + 1 = 0))]
  · intro hpos
    have hL : 0 < ((contentLines content).take 15).length := by
      rw [List.length_take]
      exact Nat.le_min.2 ⟨by omega, hpos⟩
    have h0 : 0 < (simulatedNodes content).length := by
      rw [simulatedNodes_length content]
      split <;> omega
    obtain ⟨_, hpar0⟩ := simulatedNodes_spec content 0 h0
    rw [hpar0, if_pos rfl, if_neg (by omega)]

/-- Closed instance of the amended C3 at the one-line input `hello`:
the second node points back at the first, and the first node has a null
parent. -/
theorem fallback_node_count_and_chain_witness :
    ((simulate_ai_analysis "X 1a" "hello").dialectic_nodes[0 + 1]?.bind
        DialecticNodeData.parent_id =
      (simulate_ai_analysis "X 1a" "hello").dialectic_nodes[0]?.map
        DialecticNodeData.id) ∧
    ((simulate_ai_analysis "X 1a" "hello").dialectic_nodes[0]?.bind
      DialecticNodeData.parent_id = none) :=
  ⟨(fallback_node_count_and_chain "X 1a" "hello").2.1 0 (by decide),
   (fallback_node_count_and_chain "X 1a" "hello").2.2 (by decide)⟩

/-- C6 counterexample: on the three-line input, node 2 is the line
`Statement one.`, which contains no question mark; the decision chain types
it `question` by the even-position parity rule, not `kasha` (the source
rendering of the spec type challenge). -/
theorem fallback_scenario_counterexample :
    ((simulate_ai_analysis "Berakhot 2a"
        "Question one?\nStatement one.\nDispute here.\n"
      ).dialectic_nodes[1]?.map DialecticNodeData.type) =
        some "question" ∧
      some "question" ≠ some "kasha" ∧
      ((simulate_ai_analysis "Berakhot 2a"
          "Question one?\nStatement one.\nDispute here.\n"
        ).dialectic_nodes[1]?.map
          (fun n => strContains n.content_preview "?")) = some false := by
  decide

/-- C6 (amended): the three-line input yields exactly 7 nodes: node 1 typed
mishnah (spec: teaching) with a null parent, node 2 typed question by the
parity rule (its line has no question mark and no Hebrew marker), node 3
typed answer (the dispute marker set is Hebrew-only, so the English word
Dispute does not trigger it), then the four padding nodes kasha, terutz,
proof, conclusion chained from node 3. -/
theorem fallback_three_line_scenario :
    (simulate_ai_analysis "Berakhot 2a"
        "Question one?\nStatement one.\nDispute here.\n").dialectic_nodes =
      [⟨"1", "mishnah", "Question one?", "Mishnah", "Question one?", none⟩,
       ⟨"2", "question", "Statement one.", "Gemara", "Statement one.",
         some "1"⟩,
       ⟨"3", "answer", "Dispute here.", "Gemara", "Dispute here.",
         some "2"⟩,
       ⟨"4", "kasha", "Challenge to the statement", "Gemara", "",
         some "3"⟩,
       ⟨"5", "terutz", "Resolution of the challenge", "Gemara", "",
         some "4"⟩,
       ⟨"6", "proof", "Proof from another source", "Gemara", "",
         some "5"⟩,
       ⟨"7", "conclusion", "Final ruling", "Gemara", "", some "6"⟩] := by
  decide

/-! ## Claim theorem: the analyzer never raises (C2) -/

/-- C2: For every page ref and combined text, the Dialectic Analyzer
delivers a complete analysis value to its caller: the analyzer is a total
function (every raising primitive is modelled in `Except` and caught at
exactly the branches below).  With no client it simulates directly; a
failed model call degrades to the fallback on the original content; a
reply without a decodable brace-delimited JSON span degrades to the
fallback on an empty text context (not the failed reply); a decodable
reply is built from the decoded fields; and unconditionally the result is
one of these three complete values. -/
theorem analyzer_total_with_fallback (env : Env)
    (page_ref content : String) :
    (env.hasClient = false →
      analyze_sugya_with_ai env page_ref content =
        simulate_ai_analysis page_ref content) ∧
    (∀ e, env.hasClient = true →
      env.callModel (create_analysis_prompt page_ref content) =
        Except.error e →
      analyze_sugya_with_ai env page_ref content =
        simulate_ai_analysis page_ref content) ∧
    (∀ resp, env.hasClient = true →
      env.callModel (create_analysis_prompt page_ref content) =
        Except.ok resp →
      jsonSpanDecode env.decode resp = none →
      analyze_sugya_with_ai env page_ref content =
        simulate_ai_analysis page_ref "") ∧
    (∀ resp fields, env.hasClient = true →
      env.callModel (create_analysis_prompt page_ref content) =
        Except.ok resp →
      jsonSpanDecode env.decode resp = some fields →
      analyze_sugya_with_ai env page_ref content =
        buildSugyaFromFields page_ref fields) ∧
    (analyze_sugya_with_ai env page_ref content =
        simulate_ai_analysis page_ref content ∨
      analyze_sugya_with_ai env page_ref content =
        simulate_ai_analysis page_ref "" ∨
      ∃ fields, analyze_sugya_with_ai env page_ref content =
        buildSugyaFromFields page_ref fields) := by
  refine ⟨?_, ?_, ?_, ?_, ?_⟩
  · intro h
    unfold analyze_sugya_with_ai
    rw [if_pos h]
  · intro e hc hcall
    have hne : ¬ (env.hasClient = false) := by
      rw [hc]
      decide
    unfold analyze_sugya_with_ai
    rw [if_neg hne, hcall]
  · intro resp hc hcall hdec
    have hne : ¬ (env.hasClient = false) := by
      rw [hc]
      decide
    unfold analyze_sugya_with_ai
    rw [if_neg hne, hcall]
    show parse_ai_response env.decode page_ref resp =
      simulate_ai_analysis page_ref ""
    unfold parse_ai_response
    rw [hdec]
  · intro resp fields hc hcall hdec
    have hne : ¬ (env.hasClient = false) := by
      rw [hc]
      decide
    unfold analyze_sugya_with_ai
    rw [if_neg hne, hcall]
    show parse_ai_response env.decode page_ref resp =
      buildSugyaFromFields page_ref fields
    unfold parse_ai_response
    rw [hdec]
  · unfold analyze_sugya_with_ai
    by_cases hc : env.hasClient = false
    · rw [if_pos hc]
      left
      rfl
    · rw [if_neg hc]
      cases hcall : env.callModel (create_analysis_prompt page_ref content)
        with
      | error e => left; rfl
      | ok resp =>
        show parse_ai_response env.decode page_ref resp =
            simulate_ai_analysis page_ref content ∨
          parse_ai_response env.decode page_ref resp =
            simulate_ai_analysis page_ref "" ∨
          ∃ fields, parse_ai_response env.decode page_ref resp =
            buildSugyaFromFields page_ref fields
        unfold parse_ai_response
        cases hdec : jsonSpanDecode env.decode resp with
        | none => right; left; rfl
        | some fields => right; right; exact ⟨fields, rfl⟩

/-- Closed instances of C2: a raised model call degrades to the fallback on
the original content; a reply with no JSON span degrades to the fallback on
an empty text context. -/
theorem analyzer_total_with_fallback_witness :
    analyze_sugya_with_ai envModelDown "Berakhot 2a" "some text" =
      simulate_ai_analysis "Berakhot 2a" "some text" ∧
    analyze_sugya_with_ai envModelNoJson "Berakhot 2a" "some text" =
      simulate_ai_analysis "Berakhot 2a" "" :=
  ⟨(analyzer_total_with_fallback envModelDown "Berakhot 2a"
      "some text").2.1 "connection failure" rfl rfl,
   (analyzer_total_with_fallback envModelNoJson "Berakhot 2a"
      "some text").2.2.1 "I cannot analyze this passage." rfl rfl
     (by decide)⟩

/-! ## Orchestrator bookkeeping lemmas -/

theorem saveLoop_acc (dbF : String → Bool) :
    ∀ (l : List SugyaData) (acc : Nat × Nat × GraphState),
      (l.foldl (fun acc sg =>
        let r := save_sugya_to_database dbF sg acc.2.2
        if r.1 then (acc.1 + 1, acc.2.1, r.2)
        else (acc.1, acc.2.1 + 1, r.2)) acc).1 +
      (l.foldl (fun acc sg =>
        let r := save_sugya_to_database dbF sg acc.2.2
        if r.1 then (acc.1 + 1, acc.2.1, r.2)
        else (acc.1, acc.2.1 + 1, r.2)) acc).2.1 =
      acc.1 + acc.2.1 + l.length := by
  intro l
  induction l with
  | nil =>
    intro acc
    simp
  | cons x xs ih =>
    intro acc
    rw [List.foldl_cons]
    dsimp only
    by_cases hr : (save_sugya_to_database dbF x acc.2.2).1 = true
    · rw [if_pos hr, ih]
      dsimp only
      rw [List.length_cons]
      omega
    · rw [if_neg hr, ih]
      dsimp only
      rw [List.length_cons]
      omega

theorem saveLoop_spec (dbF : String → Bool) (l : List SugyaData)
    (st : GraphState) :
    (saveLoop dbF l st).1 + (saveLoop dbF l st).2.1 = l.length := by
  unfold saveLoop
  rw [saveLoop_acc]
  simp

theorem extract_and_save_all_ok (env : Env) (t p : String) (limit : Nat)
    (st : GraphState) (hf : env.fetchFail t p = none) :
    ∃ stats st1, extract_and_save_all env t p limit st =
      .ok (stats, st1) ∧
      stats.saved + stats.failed = stats.total_extracted ∧
      stats.tractate = t := by
  obtain ⟨R, hfetch⟩ : ∃ R, fetch_texts env t p limit st = .ok R :=
    ⟨_, by unfold fetch_texts; rw [hf]⟩
  obtain ⟨S, hex⟩ : ∃ S, extract_sugyot_from_tractate env t p limit st =
      .ok S :=
    ⟨_, by unfold extract_sugyot_from_tractate; rw [hfetch]⟩
  have hrun : extract_and_save_all env t p limit st =
      .ok ({ total_extracted := S.length,
             saved := (saveLoop env.dbFail S st).1,
             failed := (saveLoop env.dbFail S st).2.1,
             tractate := t, start_page := p },
           (saveLoop env.dbFail S st).2.2) := by
    unfold extract_and_save_all
    rw [hex]
  exact ⟨_, _, hrun, saveLoop_spec env.dbFail S st, rfl⟩

theorem extract_and_save_all_err (env : Env) (t p : String) (limit : Nat)
    (st : GraphState) (e : String) (hf : env.fetchFail t p = some e) :
    extract_and_save_all env t p limit st = .error e := by
  have hfetch : fetch_texts env t p limit st = .error e := by
    unfold fetch_texts
    rw [hf]
  have hex : extract_sugyot_from_tractate env t p limit st = .error e := by
    unfold extract_sugyot_from_tractate
    rw [hfetch]
  unfold extract_and_save_all
  rw [hex]

theorem extract_and_save_all_acc (env : Env) (t p : String) (limit : Nat)
    (st : GraphState) (pr : Stats × GraphState)
    (h : extract_and_save_all env t p limit st = .ok pr) :
    pr.1.saved + pr.1.failed = pr.1.total_extracted := by
  cases hf : env.fetchFail t p with
  | some e =>
    rw [extract_and_save_all_err env t p limit st e hf] at h
    exact Except.noConfusion h
  | none =>
    obtain ⟨stats, st1, hrun, hacc, _⟩ :=
      extract_and_save_all_ok env t p limit st hf
    rw [hrun] at h
    have h2 : (stats, st1) = pr := Except.ok.inj h
    rw [← h2]
    exact hacc

theorem allTractatesStep_found (env : Env) (limit : Nat)
    (acc : AllStats × GraphState) (t : String) :
    (allTractatesStep env limit acc t).1.tractates_found =
      acc.1.tractates_found := by
  unfold allTractatesStep
  split <;> rfl

theorem allTractatesStep_acc (env : Env) (limit : Nat)
    (acc : AllStats × GraphState) (t : String)
    (h : acc.1.total_saved + acc.1.total_failed = acc.1.total_extracted) :
    (allTractatesStep env limit acc t).1.total_saved +
      (allTractatesStep env limit acc t).1.total_failed =
      (allTractatesStep env limit acc t).1.total_extracted := by
  unfold allTractatesStep
  split
  · rename_i stats st1 heq
    have hacc := extract_and_save_all_acc env t "" limit acc.2 (stats, st1)
      heq
    dsimp only at hacc ⊢
    omega
  · exact h

theorem allTractates_details_len (env : Env) (limit : Nat) :
    ∀ (ts : List String) (acc : AllStats × GraphState)
      (l : List TractateDetail), acc.1.tractate_details = some l →
      ∃ l2, (ts.foldl (allTractatesStep env limit) acc).1.tractate_details =
        some l2 ∧ l2.length = l.length + ts.length := by
  intro ts
  induction ts with
  | nil =>
    intro acc l h
    exact ⟨l, h, rfl⟩
  | cons t ts ih =>
    intro acc l h
    rw [List.foldl_cons]
    have hstep : ∃ d, (allTractatesStep env limit acc t).1.tractate_details =
        some (l ++ [d]) := by
      unfold allTractatesStep
      split
      · rename_i stats st1 heq
        exact ⟨_, by dsimp only; rw [h]; rfl⟩
      · exact ⟨_, by dsimp only; rw [h]; rfl⟩
    obtain ⟨d, hd⟩ := hstep
    obtain ⟨l2, hl2, hlen⟩ := ih (allTractatesStep env limit acc t)
      (l ++ [d]) hd
    refine ⟨l2, hl2, ?_⟩
    rw [hlen, List.length_append, List.length_cons]
    simp
    omega

theorem allTractatesStep_ok (env : Env) (limit : Nat)
    (acc : AllStats × GraphState) (t : String) (stats : Stats)
    (st1 : GraphState)
    (h : extract_and_save_all env t "" limit acc.2 = .ok (stats, st1)) :
    allTractatesStep env limit acc t =
      ({ acc.1 with
          tractates_processed := acc.1.tractates_processed + 1
          total_extracted := acc.1.total_extracted + stats.total_extracted
          total_saved := acc.1.total_saved + stats.saved
          total_failed := acc.1.total_failed + stats.failed
          tractate_details := acc.1.tractate_details.map
            (· ++ [TractateDetail.ok t stats.total_extracted
              stats.saved]) },
        st1) := by
  unfold allTractatesStep
  rw [h]

theorem allTractatesStep_err (env : Env) (limit : Nat)
    (acc : AllStats × GraphState) (t : String) (e : String)
    (h : extract_and_save_all env t "" limit acc.2 = .error e) :
    allTractatesStep env limit acc t =
      ({ acc.1 with
          tractate_details := acc.1.tractate_details.map
            (· ++ [TractateDetail.err t e]) },
        acc.2) := by
  unfold allTractatesStep
  rw [h]

/-! ## Claim theorems: orchestrators (C4, C5, C8, C9) -/

/-- C4 counterexample: with a driver failure injected into the save of page
Alpha 2b (the second of three pages), the single-tractate run does not
raise and does not abort: it returns a result with all three pages
accounted for (2 saved, 1 failed) and the third page Alpha 3a persisted. -/
theorem persistence_failure_not_propagating_counterexample :
    envFailSave.dbFail "Alpha 2b" = true ∧
    (extract_and_save_all envFailSave "Alpha" "" 10
        alphaStore).toOption.map
        (fun pr => (pr.1.total_extracted, pr.1.saved, pr.1.failed,
          decide (("Alpha 3a" : String) ∈ pr.2.sugyot.map Prod.fst))) =
      some (3, 2, 1, true) := by
  decide

/-- C4 (amended): per-page failures are indeed not individually caught at
the orchestrator level, but a per-page persistence failure does not
propagate out of the single-tractate run: it is caught inside
`save_sugya_to_database` and reported as `False`, so whenever the fetch
succeeds the run returns a result — for every injected pattern of per-save
driver failures — with the failing pages counted in `failed` and every
extracted page accounted for.  Only failures raised outside that handler
(such as the fetch read, the raising step modelled here) propagate. -/
theorem extract_and_save_all_completes (env : Env) (t p : String)
    (limit : Nat) (st : GraphState) (hf : env.fetchFail t p = none) :
    (extract_and_save_all env t p limit st).toOption ≠ none ∧
    (extract_and_save_all env t p limit st).toOption.map
        (fun pr => pr.1.saved + pr.1.failed) =
      (extract_and_save_all env t p limit st).toOption.map
        (fun pr => pr.1.total_extracted) := by
  obtain ⟨stats, st1, hrun, hacc, _⟩ :=
    extract_and_save_all_ok env t p limit st hf
  rw [hrun]
  constructor
  · simp [Except.toOption]
  · simp [Except.toOption, hacc]

/-- Closed instance of the amended C4: the Alpha run with the injected
Alpha 2b save failure completes and balances its counters. -/
theorem extract_and_save_all_completes_witness :
    (extract_and_save_all envFailSave "Alpha" "" 10
      alphaStore).toOption ≠ none ∧
    (extract_and_save_all envFailSave "Alpha" "" 10
        alphaStore).toOption.map (fun pr => pr.1.saved + pr.1.failed) =
      (extract_and_save_all envFailSave "Alpha" "" 10
        alphaStore).toOption.map (fun pr => pr.1.total_extracted) :=
  extract_and_save_all_completes envFailSave "Alpha" "" 10 alphaStore rfl

/-- C9: Count accounting.  Every completed single-tractate run satisfies
saved + failed = total_extracted (stated over the optional result, so it
covers every run: a raised run contributes `none` on both sides), and every
run of the all-tractates orchestrator satisfies
total_saved + total_failed = total_extracted, since tractates whose
processing raises contribute to none of the three aggregate counters. -/
theorem extraction_counts_accounting (env : Env) (t p : String)
    (limit : Nat) (st : GraphState) :
    ((extract_and_save_all env t p limit st).toOption.map
        (fun pr => pr.1.saved + pr.1.failed) =
      (extract_and_save_all env t p limit st).toOption.map
        (fun pr => pr.1.total_extracted)) ∧
    ((extract_all_sugyot env limit st).1.total_saved +
        (extract_all_sugyot env limit st).1.total_failed =
      (extract_all_sugyot env limit st).1.total_extracted) := by
  constructor
  · cases hrun : extract_and_save_all env t p limit st with
    | error e => rfl
    | ok pr =>
      have hacc := extract_and_save_all_acc env t p limit st pr hrun
      simp [Except.toOption, hacc]
  · unfold extract_all_sugyot
    dsimp only
    split
    · rfl
    · refine foldl_pres
        (fun (acc : AllStats × GraphState) =>
          acc.1.total_saved + acc.1.total_failed =
            acc.1.total_extracted) _ _ ?_ rfl
      intro acc t2 _ h
      exact allTractatesStep_acc env limit acc t2 h

/-- C8 counterexample: when zero tractates are discovered the early return
of `extract_all_sugyot` carries only the five counters — the per-tractate
detail list is absent from the returned dictionary, refuting the claim
for that case. -/
theorem zero_tractates_missing_detail_counterexample :
    discover_all_tractates emptyStore = [] ∧
    (extract_all_sugyot envSim 100 emptyStore).1 =
      { tractates_found := 0, tractates_processed := 0,
        total_extracted := 0, total_saved := 0, total_failed := 0,
        tractate_details := none } ∧
    (extract_all_sugyot envSim 100 emptyStore).1.tractate_details =
      none := by
  decide

/-- C8 (amended): the all-tractates entry point always returns the five
counter fields; the per-tractate detail list is present — with one entry
per discovered tractate — whenever at least one tractate is discovered,
but it is absent from the zero-tractate early return. -/
theorem extract_all_result_fields (env : Env) (limit : Nat)
    (st : GraphState) :
    (discover_all_tractates st = [] →
      (extract_all_sugyot env limit st).1 =
        { tractates_found := 0, tractates_processed := 0,
          total_extracted := 0, total_saved := 0, total_failed := 0,
          tractate_details := none }) ∧
    (discover_all_tractates st ≠ [] →
      (extract_all_sugyot env limit st).1.tractates_found =
        (discover_all_tractates st).length ∧
      (extract_all_sugyot env limit st).1.tractate_details.map
        List.length = some (discover_all_tractates st).length) := by
  constructor
  · intro h
    unfold extract_all_sugyot
    dsimp only
    rw [h]
    rfl
  · intro h
    unfold extract_all_sugyot
    dsimp only
    rw [if_neg (by simp [List.isEmpty_iff, h])]
    constructor
    · refine foldl_pres
        (fun (acc : AllStats × GraphState) =>
          acc.1.tractates_found = (discover_all_tractates st).length)
        _ _ ?_ rfl
      intro acc t2 _ hP
      rw [allTractatesStep_found]
      exact hP
    · obtain ⟨l2, hl2, hlen⟩ := allTractates_details_len env limit
        (discover_all_tractates st)
        ({ tractates_found := (discover_all_tractates st).length,
           tractates_processed := 0, total_extracted := 0,
           total_saved := 0, total_failed := 0,
           tractate_details := some [] }, st) [] rfl
      rw [hl2]
      simp [hlen]

/-- Closed instance of the amended C8: on a store with three tractates the
result carries the found count and a three-entry detail list. -/
theorem extract_all_result_fields_witness :
    (extract_all_sugyot envSim 100 triStore).1.tractates_found =
      (discover_all_tractates triStore).length ∧
    (extract_all_sugyot envSim 100 triStore).1.tractate_details.map
      List.length = some (discover_all_tractates triStore).length :=
  (extract_all_result_fields envSim 100 triStore).2 (by decide)

/-- C5: Failure isolation in the all-tractates orchestrator.  With three
discovered tractates where fetching the second raises, the loop catches the
exception: the result records tractates_processed = 2, the detail list has
three entries whose middle entry is the error marker for the second
tractate, and the first and third tractates both carry success entries. -/
theorem extract_all_isolates_failure (env : Env) (limit : Nat)
    (st : GraphState) (t1 t2 t3 e : String)
    (hdisc : discover_all_tractates st = [t1, t2, t3])
    (h1 : env.fetchFail t1 "" = none)
    (h2 : env.fetchFail t2 "" = some e)
    (h3 : env.fetchFail t3 "" = none) :
    (extract_all_sugyot env limit st).1.tractates_processed = 2 ∧
    (extract_all_sugyot env limit st).1.tractate_details.map
        (fun l => l.map (fun d => (detailTractate d, detailIsError d))) =
      some [(t1, false), (t2, true), (t3, false)] ∧
    (extract_all_sugyot env limit st).1.tractate_details.map
        (fun l => l[1]?) =
      some (some (TractateDetail.err t2 e)) := by
  obtain ⟨s1, st1, hrun1, _, _⟩ :=
    extract_and_save_all_ok env t1 "" limit st h1
  have hrun2 := extract_and_save_all_err env t2 "" limit st1 e h2
  obtain ⟨s3, st3, hrun3, _, _⟩ :=
    extract_and_save_all_ok env t3 "" limit st1 h3
  unfold extract_all_sugyot
  dsimp only
  rw [hdisc]
  rw [if_neg (by simp)]
  rw [List.foldl_cons,
    allTractatesStep_ok env limit _ t1 s1 st1 hrun1,
    List.foldl_cons,
    allTractatesStep_err env limit _ t2 e hrun2,
    List.foldl_cons,
    allTractatesStep_ok env limit _ t3 s3 st3 hrun3,
    List.foldl_nil]
  exact ⟨rfl, rfl, rfl⟩

/-- Closed instance of C5: on the three-tractate store with fetch failing
for Beta, the orchestrator processes Alpha and Gamma and records the Beta
error. -/
theorem extract_all_isolates_failure_witness :
    (extract_all_sugyot envFailFetchBeta 100
      triStore).1.tractates_processed = 2 ∧
    (extract_all_sugyot envFailFetchBeta 100
        triStore).1.tractate_details.map
        (fun l => l.map (fun d => (detailTractate d, detailIsError d))) =
      some [("Alpha", false), ("Beta", true), ("Gamma", false)] ∧
    (extract_all_sugyot envFailFetchBeta 100
        triStore).1.tractate_details.map (fun l => l[1]?) =
      some (some (TractateDetail.err "Beta" "boom")) :=
  extract_all_isolates_failure envFailFetchBeta 100 triStore "Alpha"
    "Beta" "Gamma" "boom" (by decide) rfl rfl rfl

end SugyaExtractor
